import Mathlib

/-!
Verification development for the execution core of the spectrum off-chain
trading batcher.  The Rust sources embedded here are:

* `bloom-offchain-cardano/src/liquidity_book/temporal.rs` — the matching
  kernel (`attempt`, `fill_from_fragment`, `fill_from_pool`);
* `bloom-offchain-cardano/src/liquidity_book/liquidity/pooled.rs` — the
  in-memory pool store;
* `spectrum-offchain/src/box_resolver/persistence/rocksdb.rs` — the
  persisted state index;
* `bloom-offchain/src/execution_engine/mod.rs` — the executor loop
  (`poll_next`, `link_recipe`).

Machine integers (`u64`) are embedded as `Nat` with explicit wrap-around
(`% 2^64`) at the points where the Rust code casts or may overflow in
release mode.  Rational prices/fees (`num_rational::Ratio`, normalized on
construction and ordered by value) are embedded as Lean `Rat`.
-/

namespace SpectrumExec

/-- Wrap-around of a `u128 as u64` cast. -/
def u64c (n : Nat) : Nat := n % (2 ^ 64)

/-- Release-mode wrapping `u64` subtraction (both operands `< 2^64`). -/
def u64sub (a b : Nat) : Nat := (a + 2 ^ 64 - b) % (2 ^ 64)

/-- Release-mode wrapping `u64` addition. -/
def u64add (a b : Nat) : Nat := (a + b) % (2 ^ 64)

/-- Numerator of a price as a `Nat` (prices are non-negative rationals). -/
def rnum (p : Rat) : Nat := p.num.toNat

/-- Denominator of a price. -/
def rden (p : Rat) : Nat := p.den

/-- Build a rational price `a / b`, normalized on construction exactly as
`Ratio::new` normalizes (design note §9: never normalize lazily). -/
def rq (a b : Nat) : Rat := mkRat a b

/-- Side marker (`SideM` in the source): `Ask` sells base, `Bid` buys base. -/
inductive SideMarker where
  | ask
  | bid
deriving DecidableEq, Repr

/-- The `!` (negation) of a side marker. -/
def SideMarker.flip : SideMarker → SideMarker
  | .ask => .bid
  | .bid => .ask

/-- Side-tagged value (`Side<T>` in the source). -/
inductive SideT (α : Type) where
  | ask (a : α)
  | bid (a : α)
deriving DecidableEq, Repr

/-- Marker of a side-tagged value. -/
def SideT.marker {α : Type} : SideT α → SideMarker
  | .ask _ => .ask
  | .bid _ => .bid

/-- Extract the payload regardless of the side (`Side::any`). -/
def SideT.any {α : Type} : SideT α → α
  | .ask a => a
  | .bid a => a

/-- Map over the payload (`Side::map`). -/
def SideT.map {α β : Type} (f : α → β) : SideT α → SideT β
  | .ask a => .ask (f a)
  | .bid a => .bid (f a)

/-- Tag a value with a given side marker. -/
def mkSide {α : Type} (m : SideMarker) (a : α) : SideT α :=
  match m with
  | .ask => .ask a
  | .bid => .bid a

/-- Modelled from the spec (the file defining `Side::better_than` is not in
`src/`): a side-tagged price is strictly better than another price when it is
lower on the Ask side and higher on the Bid side (§4.3 step c). -/
def SideT.betterThan : SideT Rat → Rat → Bool
  | .ask p, q => decide (p < q)
  | .bid p, q => decide (q < p)

/-- Modelled from the spec (the file defining `price_range().overlaps` is not
in `src/`): an Ask quoted at `a` overlaps any counterparty price `≥ a`, a Bid
quoted at `b` overlaps any counterparty price `≤ b` (P6). -/
def SideT.overlaps : SideT Rat → Rat → Bool
  | .ask a, p => decide (a ≤ p)
  | .bid b, p => decide (p ≤ b)

/-- Time bounds of a fragment (`TimeBounds` in the source). -/
inductive TimeBounds where
  | none
  | after (t : Nat)
  | till (t : Nat)
  | within (t0 t1 : Nat)
deriving DecidableEq, Repr

/-- A liquidity fragment, fields exactly as constructed in
`temporal.rs` (`Fragment { source, input, price, fee, cost_hint, bounds }`). -/
structure Fragment where
  source : Nat
  input : Nat
  price : Rat
  fee : Rat
  costHint : Nat
  bounds : TimeBounds
deriving DecidableEq, Repr

/-- Work-in-progress consumption of a fragment
(`PartialFill { target, remaining_input, accumulated_output }`). -/
structure PartialFill where
  target : Fragment
  remainingInput : Nat
  accumulatedOutput : Nat
deriving DecidableEq, Repr

/-- `PartialFill::new(fr)`: a fresh partial fill of a whole fragment. -/
def PartialFill.new (fr : Fragment) : PartialFill :=
  { target := fr, remainingInput := fr.input, accumulatedOutput := 0 }

/-- Completed consumption of a fragment.  Modelled from the spec and the
usage in `temporal.rs` tests (`Fill` carries the original fragment and its
final `output`; `recipe.rs` itself is not in `src/`). -/
structure Fill where
  target : Fragment
  output : Nat
deriving DecidableEq, Repr

/-- `Fill::new(fr, output)`. -/
def Fill.new (fr : Fragment) (output : Nat) : Fill :=
  { target := fr, output := output }

/-- The `.into()` conversion of a `PartialFill` into a `Fill`: the
accumulated output becomes the fill's output (matches the `temporal.rs`
tests, where an even cross asserts `output = accumulated_output`). -/
def PartialFill.toFill (pf : PartialFill) : Fill :=
  { target := pf.target, output := pf.accumulatedOutput }

/-- Crossing-price selection of the Ask-target branch of
`fill_from_fragment` (`temporal.rs` lines 158-159):
`if ask.target.fee >= bid.fee { max } else { min }` applied to
`(bid.price, ask.target.price)`. -/
def askCrossPrice (askPf : PartialFill) (bid : Fragment) : Rat :=
  if bid.fee ≤ askPf.target.fee then max bid.price askPf.target.price
  else min bid.price askPf.target.price

/-- Crossing-price selection of the Bid-target branch of
`fill_from_fragment` (`temporal.rs` lines 124-125):
`if bid.target.fee >= ask.fee { min } else { max }` applied to
`(ask.price, bid.target.price)`. -/
def bidCrossPrice (bidPf : PartialFill) (ask : Fragment) : Rat :=
  if ask.fee ≤ bidPf.target.fee then min ask.price bidPf.target.price
  else max ask.price bidPf.target.price

/-- `fill_from_fragment(target, source)` from `temporal.rs` (lines 114-189),
translated branch by branch.  The Rust `Either<Fill, PartialFill>` of the
second component is `Sum`. -/
def fillFromFragment (target : SideT PartialFill) (source : Fragment) :
    SideT Fill × (SideT Fill ⊕ SideT PartialFill) :=
  match target with
  | .bid bid =>
    let ask := source
    let price := bidCrossPrice bid ask
    let demandBase := u64c (bid.remainingInput * rden price / rnum price)
    let supplyBase := ask.input
    if demandBase < supplyBase then
      let quoteInput := bid.remainingInput
      let bid1 := { bid with accumulatedOutput := u64add bid.accumulatedOutput demandBase }
      (.bid bid1.toFill,
        .inr (.ask { target := ask
                     remainingInput := u64sub supplyBase demandBase
                     accumulatedOutput := quoteInput }))
    else if supplyBase < demandBase then
      let quoteExecuted := u64c (supplyBase * rden price / rnum price)
      let bid1 := { bid with remainingInput := u64sub bid.remainingInput quoteExecuted
                             accumulatedOutput := u64add bid.accumulatedOutput supplyBase }
      (.ask (Fill.new ask quoteExecuted), .inr (.bid bid1))
    else
      let quoteExecuted := u64c (supplyBase * rden price / rnum price)
      let bid1 := { bid with accumulatedOutput := u64add bid.accumulatedOutput demandBase }
      (.bid bid1.toFill, .inl (.ask (Fill.new ask quoteExecuted)))
  | .ask ask =>
    let bid := source
    let price := askCrossPrice ask bid
    let demandBase := u64c (bid.input * rden price / rnum price)
    let supplyBase := ask.remainingInput
    if demandBase < supplyBase then
      let ask1 := { ask with remainingInput := u64sub ask.remainingInput demandBase
                             accumulatedOutput := u64add ask.accumulatedOutput bid.input }
      (.bid (Fill.new bid demandBase), .inr (.ask ask1))
    else if supplyBase < demandBase then
      let quoteExecuted := u64c (supplyBase * rden price / rnum price)
      let ask1 := { ask with accumulatedOutput := u64add ask.accumulatedOutput quoteExecuted }
      (.ask ask1.toFill,
        .inr (.bid { target := bid
                     remainingInput := u64sub bid.input quoteExecuted
                     accumulatedOutput := supplyBase }))
    else
      let ask1 := { ask with accumulatedOutput := u64add ask.accumulatedOutput bid.input }
      (.ask ask1.toFill, .inl (.bid (Fill.new bid demandBase)))

/-- Pool quality (`PoolQuality(price_hint, liquidity)` in `pooled.rs`),
with the derived lexicographic order (`Ord` derived on the tuple struct). -/
structure PoolQuality where
  priceHint : Rat
  liquidity : Nat
deriving DecidableEq, Repr

/-- Derived lexicographic strict order on `PoolQuality`. -/
def PoolQuality.ltb (a b : PoolQuality) : Bool :=
  decide (a.priceHint < b.priceHint) ||
    (decide (a.priceHint = b.priceHint) && decide (a.liquidity < b.liquidity))

/-- A CFMM pool.  The struct fields follow the spec data model
(`{ source, reserves_x, reserves_y, quality }`); the file defining `Pool`
is not in `src/`. -/
structure Pool where
  source : Nat
  reservesX : Nat
  reservesY : Nat
  quality : PoolQuality
deriving DecidableEq, Repr

/-- Modelled from the spec: `pool.output(side, input)` — the CFMM output for
the side (`pool.rs` is not in `src/`; we instantiate the constant-product
formula, which the claims do not depend on). -/
def Pool.output (p : Pool) (s : SideMarker) (input : Nat) : Nat :=
  match s with
  | .ask => p.reservesY * input / (p.reservesX + input)
  | .bid => p.reservesX * input / (p.reservesY + input)

/-- Modelled from the spec: `pool.real_price(side, input)` — the marginal
quote-per-base price of the proposed trade. -/
def Pool.realPrice (p : Pool) (s : SideMarker) (input : Nat) : Rat :=
  match s with
  | .ask => rq (p.output .ask input) input
  | .bid => rq input (p.output .bid input)

/-- A swap instruction (`Swap { target, side, input, output }`). -/
structure SwapI where
  target : Pool
  side : SideMarker
  input : Nat
  output : Nat
deriving DecidableEq, Repr

/-- `fill_from_pool(target, source)` from `temporal.rs` (lines 191-225). -/
def fillFromPool (target : SideT PartialFill) (source : Pool) :
    SideT Fill × SwapI :=
  match target with
  | .bid bid =>
    let quoteInput := bid.remainingInput
    let executionAmount := source.output .bid quoteInput
    let bid1 := { bid with accumulatedOutput := u64add bid.accumulatedOutput executionAmount }
    (.bid bid1.toFill,
      { target := source, side := .bid, input := quoteInput, output := executionAmount })
  | .ask ask =>
    let baseInput := ask.remainingInput
    let executionAmount := source.output .ask baseInput
    let ask1 := { ask with accumulatedOutput := u64add ask.accumulatedOutput executionAmount }
    (.ask ask1.toFill,
      { target := source, side := .ask, input := baseInput, output := executionAmount })

/-- A terminal instruction of a recipe (`TerminalInstruction`: `Fill | Swap`). -/
inductive TermInstr where
  | fillI (f : SideT Fill)
  | swapI (s : SwapI)
deriving DecidableEq, Repr

/-- Modelled from the spec (`recipe.rs` is not in `src/`): an execution
recipe is an ordered sequence of terminal instructions plus a current
`remainder` (§3 Recipe). -/
structure Recipe where
  instructions : List TermInstr
  remainder : Option (SideT PartialFill)
deriving DecidableEq, Repr

/-- `Recipe::new(rem)`. -/
def Recipe.new (r : SideT PartialFill) : Recipe :=
  { instructions := [], remainder := some r }

/-- `recipe.push(i)`: append an instruction. -/
def Recipe.push (acc : Recipe) (i : TermInstr) : Recipe :=
  { acc with instructions := acc.instructions ++ [i] }

/-- `recipe.terminate(i)`: append a final instruction and clear the remainder. -/
def Recipe.terminate (acc : Recipe) (i : TermInstr) : Recipe :=
  { instructions := acc.instructions ++ [i], remainder := none }

/-- `recipe.set_remainder(r)`. -/
def Recipe.setRemainder (acc : Recipe) (r : SideT PartialFill) : Recipe :=
  { acc with remainder := some r }

/-- Modelled from the spec (I4): a recipe is complete iff the remainder is
`None` and it contains at least two instructions. -/
def Recipe.isComplete (acc : Recipe) : Bool :=
  acc.remainder.isNone && decide (2 ≤ acc.instructions.length)

/-- Liquidity unit held by one instruction: a side-tagged fragment for a
fill, a pool for a swap. -/
def instrLiq : TermInstr → (SideT Fragment ⊕ Pool)
  | .fillI sf => .inl (sf.map (fun f => f.target))
  | .swapI sw => .inr sw.target

/-- Modelled from the spec (§4.3 step 4 and P7, together with the
`temporal.rs` comment `return liquidity if recipe failed`): `disassemble`
yields every liquidity unit the recipe holds — the fragment of every fill,
the pool of every swap and the fragment of the remainder. -/
def Recipe.disassemble (acc : Recipe) : List (SideT Fragment ⊕ Pool) :=
  acc.instructions.map instrLiq ++
    (match acc.remainder with
     | some r => [.inl (r.map (fun pf => pf.target))]
     | none => [])

/-! ### Pool store (`InMemoryPooledLiquidity`, `pooled.rs`)

The `HashMap<SourceId, Pl>` is embedded as an association list (first match
wins, insertion returns the previous value) and the `BTreeMap<PoolQuality,
SourceId>` as a list sorted in ascending key order so that the head is the
first (minimal) key. -/

/-- `HashMap::get`. -/
def alLookup : List (Nat × Pool) → Nat → Option Pool
  | [], _ => none
  | (k, v) :: rest, key => if k = key then some v else alLookup rest key

/-- `HashMap::insert`: replaces an existing binding (returning the old
value) or appends a new one. -/
def alInsert : List (Nat × Pool) → Nat → Pool → Option Pool × List (Nat × Pool)
  | [], key, v => (none, [(key, v)])
  | (k, w) :: rest, key, v =>
    if k = key then (some w, (key, v) :: rest)
    else
      let (old, rest1) := alInsert rest key v
      (old, (k, w) :: rest1)

/-- `Entry::remove` of an occupied `HashMap` entry. -/
def alRemove : List (Nat × Pool) → Nat → List (Nat × Pool)
  | [], _ => []
  | (k, v) :: rest, key => if k = key then rest else (k, v) :: alRemove rest key

/-- `BTreeMap::insert` on the quality index (sorted insert; an equal key is
replaced). -/
def btInsertQ : List (PoolQuality × Nat) → PoolQuality → Nat → List (PoolQuality × Nat)
  | [], key, v => [(key, v)]
  | (k, w) :: rest, key, v =>
    if PoolQuality.ltb key k then (key, v) :: (k, w) :: rest
    else if key = k then (key, v) :: rest
    else (k, w) :: btInsertQ rest key v

/-- `BTreeMap::remove` on the quality index. -/
def btRemoveQ : List (PoolQuality × Nat) → PoolQuality → List (PoolQuality × Nat)
  | [], _ => []
  | (k, w) :: rest, key => if k = key then rest else (k, w) :: btRemoveQ rest key

/-- The in-memory pool store (`InMemoryPooledLiquidity { pools, quality_index }`). -/
structure PoolStore where
  pools : List (Nat × Pool)
  qualityIndex : List (PoolQuality × Nat)
deriving DecidableEq, Repr

/-- `best_price()` from `pooled.rs` lines 27-31: the price hint of the first
key of the quality index. -/
def PoolStore.bestPrice (ps : PoolStore) : Option Rat :=
  ps.qualityIndex.head?.map (fun kv => kv.1.priceHint)

/-- Scan of the quality index performed by `try_pick` (`pooled.rs` lines
33-44): the first occupied pool entry passing the test is removed from the
pools map (the index entry stays). -/
def tryPickScan (pools : List (Nat × Pool)) (test : Pool → Bool) :
    List (PoolQuality × Nat) → Option (Pool × List (Nat × Pool))
  | [] => none
  | (_, id) :: rest =>
    match alLookup pools id with
    | some pl => if test pl then some (pl, alRemove pools id) else tryPickScan pools test rest
    | none => tryPickScan pools test rest

/-- `try_pick(test)` from `pooled.rs`. -/
def PoolStore.tryPick (ps : PoolStore) (test : Pool → Bool) :
    Option (Pool × PoolStore) :=
  (tryPickScan ps.pools test ps.qualityIndex).map
    (fun r => (r.1, { ps with pools := r.2 }))

/-- `return_pool(pool)` from `pooled.rs` lines 45-47: reinsert into the
pools map without touching the index. -/
def PoolStore.returnPool (ps : PoolStore) (pool : Pool) : PoolStore :=
  { ps with pools := (alInsert ps.pools pool.source pool).2 }

/-- `update_pool(pool)` from `pooled.rs` lines 50-58: upsert into the pools
map; only when a previous pool with the same source existed is its quality
index entry removed and the new one inserted. -/
def PoolStore.updatePool (ps : PoolStore) (pool : Pool) : PoolStore :=
  let source := pool.source
  let (old, pools1) := alInsert ps.pools source pool
  match old with
  | some oldPool =>
    { pools := pools1
      qualityIndex := btInsertQ (btRemoveQ ps.qualityIndex oldPool.quality) pool.quality source }
  | none => { pools := pools1, qualityIndex := ps.qualityIndex }

/-- The empty pool store. -/
def emptyPS : PoolStore := { pools := [], qualityIndex := [] }

/-! ### Fragment store

Modelled from the spec §4.1 (`fragmented.rs` is not in `src/`): per side an
ordered collection of active fragments kept in best-first order (minimal
price first on the Ask side, maximal first on the Bid side; ties by fee then
FIFO).  The claims below do not depend on the ordering, only on membership,
so the store is embedded as the two best-first lists.  The spec leaves the
cross-side rule of `pick_either` unspecified; the model takes the Ask side
first. -/

structure FragStore where
  asks : List Fragment
  bids : List Fragment
deriving DecidableEq, Repr

/-- The list of one side of the store. -/
def FragStore.sideList (fs : FragStore) : SideMarker → List Fragment
  | .ask => fs.asks
  | .bid => fs.bids

/-- Replace the list of one side of the store. -/
def FragStore.withSide (fs : FragStore) : SideMarker → List Fragment → FragStore
  | .ask, l => { fs with asks := l }
  | .bid, l => { fs with bids := l }

/-- Modelled from the spec: `best_price(side)` peeks at the best fragment of
the side, tagging the price with that side. -/
def FragStore.bestPrice (fs : FragStore) (s : SideMarker) : Option (SideT Rat) :=
  (fs.sideList s).head?.map (fun fr => mkSide s fr.price)

/-- Modelled from the spec: `pick_either()` pops the globally best active
fragment across both sides as a fresh `PartialFill` (Ask side first). -/
def FragStore.pickEither (fs : FragStore) : Option (SideT PartialFill × FragStore) :=
  match fs.asks with
  | a :: rest => some (.ask (PartialFill.new a), { fs with asks := rest })
  | [] =>
    match fs.bids with
    | b :: rest => some (.bid (PartialFill.new b), { fs with bids := rest })
    | [] => none

/-- Remove the first element of a list satisfying a predicate. -/
def removeFirst (p : α → Bool) : List α → Option (α × List α)
  | [] => none
  | a :: rest =>
    if p a then some (a, rest)
    else (removeFirst p rest).map (fun r => (r.1, a :: r.2))

/-- Modelled from the spec: `try_pick(side, predicate)` removes the best
(first in best-first order) active fragment on `side` satisfying the
predicate. -/
def FragStore.tryPick (fs : FragStore) (s : SideMarker) (p : Fragment → Bool) :
    Option (Fragment × FragStore) :=
  (removeFirst p (fs.sideList s)).map (fun r => (r.1, fs.withSide s r.2))

/-- Modelled from the spec: `return_fr(fr)` reinserts a fragment unchanged
into its side. -/
def FragStore.returnFr (fs : FragStore) (sf : SideT Fragment) : FragStore :=
  fs.withSide sf.marker (sf.any :: fs.sideList sf.marker)

/-- Number of fragments held by the store. -/
def FragStore.size (fs : FragStore) : Nat := fs.asks.length + fs.bids.length

/-! ### Matching kernel (`attempt`, `temporal.rs` lines 49-111)

The loop is embedded with explicit fuel (each `continue` iteration removes
one fragment from the store via `try_pick`, so `size + 1` fuel suffices) and
an instrumentation log recording, per loop iteration, the remainder side,
the side on which `best_price` was queried, and the budget movement.  The
log is write-only: it does not influence control flow. -/

/-- `ExecutionCap { soft, hard }` from `temporal.rs`. -/
structure ExecutionCap where
  soft : Nat
  hard : Nat
deriving DecidableEq, Repr

/-- `safe_threshold() = hard - soft`. -/
def ExecutionCap.safeThreshold (c : ExecutionCap) : Nat := c.hard - c.soft

/-- One loop iteration of `attempt`, recorded for verification. -/
structure LoopEntry where
  remSide : SideMarker
  queriedSide : SideMarker
  budgetBefore : Nat
  pickedCost : Option Nat
  budgetAfter : Nat
deriving DecidableEq, Repr

/-- State carried out of the `attempt` loop. -/
structure AttemptOut where
  acc : Recipe
  budget : Nat
  fs : FragStore
  ps : PoolStore
  log : List LoopEntry
deriving DecidableEq, Repr

/-- The counterparty-fragment predicate of `attempt` (`temporal.rs` lines
65-68): price ranges overlap and the fragment's cost hint fits the
remaining budget. -/
def fragPredicate (rem : SideT PartialFill) (budget : Nat) (fr : Fragment) : Bool :=
  (rem.map (fun pf => pf.target.price)).overlaps fr.price && decide (fr.costHint ≤ budget)

/-- The pool predicate of `attempt` (`temporal.rs` lines 85-88). -/
def poolPredicate (rem : SideT PartialFill) (pl : Pool) : Bool :=
  (rem.map (fun pf => pf.target.price)).overlaps
    (pl.realPrice rem.marker rem.any.remainingInput)

/-- The pool arm of the `attempt` match (`temporal.rs` lines 84-93): taken
when the fragment arm's guard did not fire; requires a pool price and a
positive budget; a successful pick pushes the swap and terminates. -/
def poolArm (acc : Recipe) (rem : SideT PartialFill) (budget : Nat)
    (fs : FragStore) (ps : PoolStore) (pricePools : Option Rat)
    (entry0 : LoopEntry) : AttemptOut :=
  if pricePools.isSome && decide (0 < budget) then
    match ps.tryPick (poolPredicate rem) with
    | some (pool, ps1) =>
      let r := fillFromPool rem pool
      ⟨(acc.push (.swapI r.2)).terminate (.fillI r.1), budget, fs, ps1, [entry0]⟩
    | none => ⟨acc, budget, fs, ps, [entry0]⟩
  else ⟨acc, budget, fs, ps, [entry0]⟩

/-- The loop of `attempt` (`temporal.rs` lines 53-98).  `fixedSide` is
`best_fr.marker()`, fixed before the loop: the source queries
`best_price(!best_fr.marker())` (line 55) even though `try_pick` uses
`!rem.marker()` (line 65). -/
def attemptLoop (fixedSide : SideMarker) (cap : ExecutionCap) :
    Nat → Recipe → Nat → FragStore → PoolStore → AttemptOut
  | 0, acc, budget, fs, ps => ⟨acc, budget, fs, ps, []⟩
  | fuel + 1, acc, budget, fs, ps =>
    match acc.remainder with
    | none => ⟨acc, budget, fs, ps, []⟩
    | some rem =>
      let queried := fixedSide.flip
      let priceFragments := fs.bestPrice queried
      let pricePools := ps.bestPrice
      let entry0 : LoopEntry := ⟨rem.marker, queried, budget, none, budget⟩
      match priceFragments with
      | some pf =>
        if (pricePools.map (fun p => pf.betterThan p)).getD true
            && decide (cap.safeThreshold < budget) then
          match fs.tryPick rem.marker.flip (fragPredicate rem budget) with
          | some (opp, fs1) =>
            let budget1 := budget - opp.costHint
            let entry : LoopEntry := ⟨rem.marker, queried, budget, some opp.costHint, budget1⟩
            match fillFromFragment rem opp with
            | (ltFill, .inl rtFill) =>
              ⟨(acc.push (.fillI ltFill)).terminate (.fillI rtFill), budget1, fs1, ps, [entry]⟩
            | (ltFill, .inr newRem) =>
              let out := attemptLoop fixedSide cap fuel
                ((acc.push (.fillI ltFill)).setRemainder newRem) budget1 fs1 ps
              ⟨out.acc, out.budget, out.fs, out.ps, entry :: out.log⟩
          | none => ⟨acc, budget, fs, ps, [entry0]⟩
        else poolArm acc rem budget fs ps pricePools entry0
      | none => poolArm acc rem budget fs ps pricePools entry0

/-- The disassembly fold of `attempt` (`temporal.rs` lines 102-107):
fragments go back through `return_fr`, pools through `update_pool`. -/
def restoreLiq (fs : FragStore) (ps : PoolStore) :
    List (SideT Fragment ⊕ Pool) → FragStore × PoolStore
  | [] => (fs, ps)
  | .inl sf :: rest => restoreLiq (fs.returnFr sf) ps rest
  | .inr pl :: rest => restoreLiq fs (ps.updatePool pl) rest

/-- Result of one `attempt()` invocation. -/
structure AttemptResult where
  res : Option Recipe
  fs : FragStore
  ps : PoolStore
  log : List LoopEntry
deriving DecidableEq, Repr

/-- `attempt()` from `temporal.rs` lines 49-111. -/
def attempt (cap : ExecutionCap) (fs : FragStore) (ps : PoolStore) : AttemptResult :=
  match fs.pickEither with
  | none => ⟨none, fs, ps, []⟩
  | some (bestFr, fs1) =>
    let out := attemptLoop bestFr.marker cap (fs1.size + 1) (Recipe.new bestFr) cap.hard fs1 ps
    if out.acc.isComplete then ⟨some out.acc, out.fs, out.ps, out.log⟩
    else
      let r := restoreLiq out.fs out.ps out.acc.disassemble
      ⟨none, r.1, r.2, out.log⟩

/-- The `attempt` loop as the spec words it (§4.3 step 3b): identical to
`attemptLoop` except that `best_price` is queried on the side opposite to
the side of the **current remainder** `rem`, not on the side fixed from the
initially picked fragment.  Used only to compare the code against the spec. -/
def specLoopRemSide (cap : ExecutionCap) :
    Nat → Recipe → Nat → FragStore → PoolStore → AttemptOut
  | 0, acc, budget, fs, ps => ⟨acc, budget, fs, ps, []⟩
  | fuel + 1, acc, budget, fs, ps =>
    match acc.remainder with
    | none => ⟨acc, budget, fs, ps, []⟩
    | some rem =>
      let queried := rem.marker.flip
      let priceFragments := fs.bestPrice queried
      let pricePools := ps.bestPrice
      let entry0 : LoopEntry := ⟨rem.marker, queried, budget, none, budget⟩
      match priceFragments with
      | some pf =>
        if (pricePools.map (fun p => pf.betterThan p)).getD true
            && decide (cap.safeThreshold < budget) then
          match fs.tryPick rem.marker.flip (fragPredicate rem budget) with
          | some (opp, fs1) =>
            let budget1 := budget - opp.costHint
            let entry : LoopEntry := ⟨rem.marker, queried, budget, some opp.costHint, budget1⟩
            match fillFromFragment rem opp with
            | (ltFill, .inl rtFill) =>
              ⟨(acc.push (.fillI ltFill)).terminate (.fillI rtFill), budget1, fs1, ps, [entry]⟩
            | (ltFill, .inr newRem) =>
              let out := specLoopRemSide cap fuel
                ((acc.push (.fillI ltFill)).setRemainder newRem) budget1 fs1 ps
              ⟨out.acc, out.budget, out.fs, out.ps, entry :: out.log⟩
          | none => ⟨acc, budget, fs, ps, [entry0]⟩
        else poolArm acc rem budget fs ps pricePools entry0
      | none => poolArm acc rem budget fs ps pricePools entry0

/-- The spec-worded `attempt` built on `specLoopRemSide`. -/
def attemptSpecRemSide (cap : ExecutionCap) (fs : FragStore) (ps : PoolStore) :
    AttemptResult :=
  match fs.pickEither with
  | none => ⟨none, fs, ps, []⟩
  | some (bestFr, fs1) =>
    let out := specLoopRemSide cap (fs1.size + 1) (Recipe.new bestFr) cap.hard fs1 ps
    if out.acc.isComplete then ⟨some out.acc, out.fs, out.ps, out.log⟩
    else
      let r := restoreLiq out.fs out.ps out.acc.disassemble
      ⟨none, r.1, r.2, out.log⟩

/-! ### Persisted entity repository (`rocksdb.rs`)

The five prefixed-key families (`state:`, `prediction:link:`,
`predicted:last:`, `confirmed:last:`, `unconfirmed:last:`) are disjoint, so
the database is embedded as five maps.  `bincode` round-trips are the
identity.  Both `StableId` and `Version` are embedded as `Nat`. -/

/-- An entity snapshot: a stable id plus a version. -/
structure Entity where
  stableId : Nat
  version : Nat
deriving DecidableEq, Repr

/-- Point update of a map. -/
def mapUpd {α : Type} (f : Nat → Option α) (k : Nat) (v : Option α) :
    Nat → Option α :=
  fun x => if x = k then v else f x

/-- The five key families of `EntityRepoRocksDB`. -/
structure EntityDB where
  states : Nat → Option Entity
  links : Nat → Option Nat
  lastPredicted : Nat → Option Nat
  lastConfirmed : Nat → Option Nat
  lastUnconfirmed : Nat → Option Nat

/-- `get_prediction_predecessor(sid)` (`rocksdb.rs` lines 42-57). -/
def getPredictionPredecessor (db : EntityDB) (sid : Nat) : Option Nat :=
  db.links sid

/-- `get_last_predicted(id)` (`rocksdb.rs` lines 59-87): read the
last-predicted index, then yield the state only when a prediction link
exists for that version. -/
def getLastPredicted (db : EntityDB) (id : Nat) : Option Entity :=
  (db.lastPredicted id).bind
    (fun sid => if (db.links sid).isSome then db.states sid else none)

/-- `get_last_confirmed(id)` (`rocksdb.rs` lines 89-107). -/
def getLastConfirmed (db : EntityDB) (id : Nat) : Option Entity :=
  (db.lastConfirmed id).bind db.states

/-- `get_last_unconfirmed(id)` (`rocksdb.rs` lines 109-127). -/
def getLastUnconfirmed (db : EntityDB) (id : Nat) : Option Entity :=
  (db.lastUnconfirmed id).bind db.states

/-- `put_predicted(Traced { state, prev_state_id })` (`rocksdb.rs` lines
129-155): store the state, set the last-predicted index entry, and write
the prediction link only when `prev_state_id` is `Some`. -/
def putPredicted (db : EntityDB) (e : Entity) (prevStateId : Option Nat) :
    EntityDB :=
  { db with
    states := mapUpd db.states e.version (some e)
    lastPredicted := mapUpd db.lastPredicted e.stableId (some e.version)
    links :=
      match prevStateId with
      | some prev => mapUpd db.links e.version (some prev)
      | none => db.links }

/-- `put_confirmed` (`rocksdb.rs` lines 157-173). -/
def putConfirmed (db : EntityDB) (e : Entity) : EntityDB :=
  { db with
    states := mapUpd db.states e.version (some e)
    lastConfirmed := mapUpd db.lastConfirmed e.stableId (some e.version) }

/-- `put_unconfirmed` (`rocksdb.rs` lines 175-191). -/
def putUnconfirmed (db : EntityDB) (e : Entity) : EntityDB :=
  { db with
    states := mapUpd db.states e.version (some e)
    lastUnconfirmed := mapUpd db.lastUnconfirmed e.stableId (some e.version) }

/-- `invalidate(sid, eid)` (`rocksdb.rs` lines 193-226): look up the
predecessor through the prediction link of `sid`; when one exists, write it
into the **last-confirmed** index entry of `eid`, otherwise delete that
entry; then delete the prediction link of `sid` and the last-unconfirmed
index entry of `eid`. -/
def invalidate (db : EntityDB) (sid eid : Nat) : EntityDB :=
  let predecessor := getPredictionPredecessor db sid
  { db with
    lastConfirmed :=
      match predecessor with
      | some p => mapUpd db.lastConfirmed eid (some p)
      | none => mapUpd db.lastConfirmed eid none
    links := mapUpd db.links sid none
    lastUnconfirmed := mapUpd db.lastUnconfirmed eid none }

/-- The empty repository. -/
def emptyDB : EntityDB :=
  { states := fun _ => none
    links := fun _ => none
    lastPredicted := fun _ => none
    lastConfirmed := fun _ => none
    lastUnconfirmed := fun _ => none }

/-! ### Recipe linking (`link_recipe`, `execution_engine/mod.rs` lines 294-322)

Instructions carry only what linking inspects: the stable id of the target
plus a payload distinguishing instructions.  The cache (`KvStore`) maps a
stable id to the bearer of its latest bundled state; the
`expect("State is inconsistent")` panic on a missing bearer is embedded as
`none`. -/

/-- A fill instruction as seen by the engine (`fill.target_fr` carries the
stable id). -/
structure OFill where
  targetFr : Nat
  amount : Nat
deriving DecidableEq, Repr

/-- A swap instruction as seen by the engine. -/
structure OSwap where
  target : Nat
  amount : Nat
deriving DecidableEq, Repr

/-- A terminal instruction of an engine-level `ExecutionRecipe`. -/
inductive EngineInstr where
  | fillE (f : OFill)
  | swapE (s : OSwap)
deriving DecidableEq, Repr

/-- A linked terminal instruction: the instruction plus its bearer. -/
inductive LinkedInstr where
  | fillL (f : OFill) (bearer : Nat)
  | swapL (s : OSwap) (bearer : Nat)
deriving DecidableEq, Repr

/-- Link one instruction by fetching the bearer from the cache under the
target's stable id. -/
def linkInstr (cache : Nat → Option Nat) : EngineInstr → Option LinkedInstr
  | .fillE f => (cache f.targetFr).map (.fillL f)
  | .swapE s => (cache s.target).map (.swapL s)

/-- The `while let Some(i) = xs.pop()` loop of `link_recipe`: `Vec::pop`
takes instructions from the **back** of the recipe, and each linked
instruction is pushed onto the end of `linked`. -/
def linkRecipeGo (cache : Nat → Option Nat) :
    List EngineInstr → List LinkedInstr → Option (List LinkedInstr)
  | [], linked => some linked
  | i :: rest, linked =>
    match linkInstr cache i with
    | some l => linkRecipeGo cache rest (linked ++ [l])
    | none => none

/-- `link_recipe(ExecutionRecipe(xs))`: the loop consumes `xs` from the
back, so the traversal order is `xs.reverse`. -/
def linkRecipe (cache : Nat → Option Nat) (xs : List EngineInstr) :
    Option (List LinkedInstr) :=
  linkRecipeGo cache xs.reverse []

/-- Linking in recipe order, following the claim's words (`LinkedRecipe`:
same instructions in the same order, each with its bearer).  Used only to
compare against `linkRecipe`. -/
def linkAllSameOrder (cache : Nat → Option Nat) :
    List EngineInstr → Option (List LinkedInstr)
  | [] => some []
  | i :: rest =>
    match linkInstr cache i with
    | some l => (linkAllSameOrder cache rest).map (fun ls => l :: ls)
    | none => none

/-! ### Executor poll loop (`poll_next`, `execution_engine/mod.rs` lines 348-393)

The executor is generic over the book, recipe, effects, transaction, update
and environment types (in the source they are trait-bounded type
parameters); the collaborators are passed as functions.  `ExecDeps.runRecipe`
bundles `link_recipe`, `Interpreter::run` and `Prover::prove`, and
`applyEffects` bundles the per-effect `update_state` writes of the feedback
`Ok` branch; neither touches the books, matching the source.  The returned
`List Nat` records, in order, the pairs on whose book `attempt()` was
invoked during the poll. -/

/-- External collaborators and book callbacks of the executor. -/
structure ExecDeps (B R E T U Env : Type) where
  attemptB : B → Option R × B
  onRecipeSucceeded : B → B
  onRecipeFailed : B → B
  syncBook : U → Env → B → Env × B
  applyEffects : E → Env → Env
  runRecipe : Env → R → T × E

/-- Executor state: per-pair books (`MultiPair` as a total map), the
index/cache environment, the feedback and upstream queues, the pending
effects and the focus set (kept sorted, `BTreeSet`). -/
structure ExecState (B E U Env : Type) where
  books : Nat → B
  env : Env
  feedback : List Bool
  upstream : List (Nat × U)
  pendingEffects : Option (Nat × E)
  focusSet : List Nat

/-- Outcome of one `poll_next`. -/
inductive PollOut (T : Type) where
  | ready (t : T)
  | pending
deriving DecidableEq, Repr

/-- Update one pair's book. -/
def updBook {B : Type} (books : Nat → B) (p : Nat) (b : B) : Nat → B :=
  fun x => if x = p then b else books x

/-- `BTreeSet::insert` on the sorted focus set. -/
def focusInsert (p : Nat) : List Nat → List Nat
  | [] => [p]
  | q :: rest =>
    if p < q then p :: q :: rest
    else if p = q then q :: rest
    else q :: focusInsert p rest

/-- The `while let Some(focus_pair) = self.focus_set.pop_first()` work loop
(`mod.rs` lines 379-390): call `attempt()` on each popped pair; on a recipe,
link/interpret/prove, record the pending effects, re-insert the pair and
yield the transaction. -/
def workLoop {B R E T U Env : Type} (deps : ExecDeps B R E T U Env) :
    ExecState B E U Env → List Nat →
      PollOut T × ExecState B E U Env × List Nat
  | st, [] => (.pending, { st with focusSet := [] }, [])
  | st, q :: rest =>
    let r := deps.attemptB (st.books q)
    let st1 := { st with books := updBook st.books q r.2, focusSet := rest }
    match r.1 with
    | some recipe =>
      let te := deps.runRecipe st1.env recipe
      (.ready te.1,
        { st1 with pendingEffects := some (q, te.2), focusSet := focusInsert q rest },
        [q])
    | none =>
      let out := workLoop deps st1 rest
      (out.1, out.2.1, q :: out.2.2)

/-- `poll_next` (`mod.rs` lines 348-393).  The outer `loop` is embedded with
fuel (each `continue` consumes a feedback or upstream item, so
`|feedback| + |upstream| + 1` suffices).  Note the fall-through: when
`pending_effects` is held but the feedback stream is not ready, the code
re-inserts the pending effects and **proceeds to ingest and to the work
loop** (the source marks this with
`todo: swap polling and pending_effects.take(); We don't wait here
actually.`). -/
def pollNext {B R E T U Env : Type} (deps : ExecDeps B R E T U Env) :
    Nat → ExecState B E U Env → PollOut T × ExecState B E U Env × List Nat
  | 0, st => (.pending, st, [])
  | fuel + 1, st =>
    match st.pendingEffects, st.feedback with
    | some pe, result :: fbRest =>
      let book1 :=
        if result then deps.onRecipeSucceeded (st.books pe.1)
        else deps.onRecipeFailed (st.books pe.1)
      let env1 := if result then deps.applyEffects pe.2 st.env else st.env
      pollNext deps fuel
        { st with env := env1, books := updBook st.books pe.1 book1
                  pendingEffects := none, feedback := fbRest }
    | _, _ =>
      match st.upstream with
      | (p, u) :: upRest =>
        let r := deps.syncBook u st.env (st.books p)
        pollNext deps fuel
          { st with env := r.1, books := updBook st.books p r.2
                    upstream := upRest, focusSet := focusInsert p st.focusSet }
      | [] => workLoop deps st st.focusSet

/-! ### Verification vocabulary -/

/-- Side-tagged multiset of the fragments held by the store. -/
def fragMS (fs : FragStore) : Multiset (SideMarker × Fragment) :=
  (fs.asks.map (fun f => (SideMarker.ask, f)) : Multiset (SideMarker × Fragment)) +
    (fs.bids.map (fun f => (SideMarker.bid, f)) : Multiset (SideMarker × Fragment))

/-- Fragments (with their side) held by one instruction. -/
def instrFragsMS : TermInstr → Multiset (SideMarker × Fragment)
  | .fillI sf => {(sf.marker, sf.any.target)}
  | .swapI _ => 0

/-- Fragment (with its side) held by a remainder. -/
def remFragsMS : Option (SideT PartialFill) → Multiset (SideMarker × Fragment)
  | some r => {(r.marker, r.any.target)}
  | none => 0

/-- All fragments (with their sides) held by a recipe. -/
def recipeMS (acc : Recipe) : Multiset (SideMarker × Fragment) :=
  (acc.instructions.map instrFragsMS).sum + remFragsMS acc.remainder

/-- Whether a recipe contains a swap instruction. -/
def recipeHasSwap (acc : Recipe) : Bool :=
  acc.instructions.any (fun i => match i with | .swapI _ => true | .fillI _ => false)

/-- Fragments (with their sides) in a disassembly list. -/
def liqFragMS : List (SideT Fragment ⊕ Pool) → Multiset (SideMarker × Fragment)
  | [] => 0
  | .inl sf :: rest => (sf.marker, sf.any) ::ₘ liqFragMS rest
  | .inr _ :: rest => liqFragMS rest

/-- Cost picked by one logged loop iteration (0 when no fragment was picked). -/
def LoopEntry.picked (e : LoopEntry) : Nat := e.pickedCost.getD 0

/-- Total cost of the counterparty fragments picked during the loop. -/
def pickedTotal (log : List LoopEntry) : Nat :=
  (log.map LoopEntry.picked).sum

/-- Cost hint contributed to a recipe by one instruction. -/
def instrFragCost : TermInstr → Nat
  | .fillI sf => sf.any.target.costHint
  | .swapI _ => 0

/-- Total cost hint of every fragment chosen into a recipe (fills and
remainder). -/
def Recipe.fragCost (acc : Recipe) : Nat :=
  (acc.instructions.map instrFragCost).sum +
    (match acc.remainder with
     | some r => r.any.target.costHint
     | none => 0)

/-- Budget bookkeeping of one logged iteration relative to the budget `b` in
force when the iteration started: the recorded starting budget is `b`, the
budget never increases, and a picked fragment's cost is within the budget
and subtracted exactly. -/
def entryOk (b : Nat) (e : LoopEntry) : Prop :=
  e.budgetBefore = b ∧ e.budgetAfter ≤ e.budgetBefore ∧
    (match e.pickedCost with
     | some c => c ≤ e.budgetBefore ∧ e.budgetAfter = e.budgetBefore - c
     | none => e.budgetAfter = e.budgetBefore)

/-- The logged iterations form a chain: each starts at the budget the
previous one left. -/
def chainOk : Nat → List LoopEntry → Prop
  | _, [] => True
  | b, e :: rest => entryOk b e ∧ chainOk e.budgetAfter rest

/-! ### Concrete fixtures -/

/-- Scenario for C2: the initially picked Ask fragment costs 1000, ten times
the hard cap of 100. -/
def c2A : Fragment :=
  { source := 1, input := 1000, price := rq 37 100, fee := rq 1 1000
    costHint := 1000, bounds := .none }

/-- Counterparty Bid fragment for C2 (cost 100 = the full hard cap). -/
def c2B : Fragment :=
  { source := 2, input := 370, price := rq 37 100, fee := rq 1 1000
    costHint := 100, bounds := .none }

/-- Execution cap for C2/C6 (`soft = hard = 100`, safe threshold 0). -/
def c2cap : ExecutionCap := { soft := 100, hard := 100 }

/-- Fragment store for C2. -/
def c2fs : FragStore := { asks := [c2A], bids := [c2B] }

/-- Scenario for C3: Ask fragment at price 2. -/
def c3A : Fragment :=
  { source := 1, input := 1000, price := rq 2 1, fee := rq 1 1000
    costHint := 10, bounds := .none }

/-- Large Bid fragment for C3; its partial fill becomes the remainder. -/
def c3B1 : Fragment :=
  { source := 2, input := 3000, price := rq 2 1, fee := rq 1 1000
    costHint := 10, bounds := .none }

/-- Second Bid fragment for C3; after the side flip its price is what the
(fixed-side) `best_price` query reports. -/
def c3B2 : Fragment :=
  { source := 3, input := 100, price := rq 2 1, fee := rq 1 1000
    costHint := 10, bounds := .none }

/-- Pool for C3, deep enough to absorb the Bid remainder. -/
def c3P : Pool :=
  { source := 7, reservesX := 1000000, reservesY := 1000000
    quality := { priceHint := rq 1 1, liquidity := 1000000 } }

/-- Execution cap for C3. -/
def c3cap : ExecutionCap := { soft := 1000, hard := 1000 }

/-- Fragment store for C3. -/
def c3fs : FragStore := { asks := [c3A], bids := [c3B1, c3B2] }

/-- Pool store for C3. -/
def c3ps : PoolStore :=
  { pools := [(7, c3P)]
    qualityIndex := [({ priceHint := rq 1 1, liquidity := 1000000 }, 7)] }

/-- Ask fragment `A` of spec scenario 3 (C4). -/
def c4A : Fragment :=
  { source := 1, input := 1000, price := rq 36 100, fee := rq 1 1000
    costHint := 100, bounds := .none }

/-- Bid fragment `B` of spec scenario 3 (C4): higher fee, higher price. -/
def c4B : Fragment :=
  { source := 2, input := 360, price := rq 37 100, fee := rq 2 1000
    costHint := 100, bounds := .none }

/-- Ask fragment `A` of spec scenario 2 (C5). -/
def c5A : Fragment :=
  { source := 1, input := 1000, price := rq 37 100, fee := rq 1 1000
    costHint := 100, bounds := .none }

/-- Bid fragment `B` of spec scenario 2 (C5). -/
def c5B : Fragment :=
  { source := 2, input := 210, price := rq 37 100, fee := rq 1 1000
    costHint := 100, bounds := .none }

/-- Fragment store for the C6 witness: a single Ask and no counterparty. -/
def c6fs : FragStore := { asks := [c2A], bids := [] }

/-- A pool for C7. -/
def c7P : Pool :=
  { source := 4, reservesX := 100, reservesY := 100
    quality := { priceHint := rq 1 1, liquidity := 100 } }

/-- Executor collaborators for C1: `attempt` always yields a recipe, the
interpreter/prover pipeline turns it into transaction 42 with effects 9. -/
def c1Deps : ExecDeps Nat Nat Nat Nat Nat Nat :=
  { attemptB := fun b => (some 5, b)
    onRecipeSucceeded := fun b => b
    onRecipeFailed := fun b => b
    syncBook := fun _ env b => (env, b)
    applyEffects := fun _ env => env
    runRecipe := fun _ _ => (42, 9) }

/-- Executor state for C1: effects for pair 0 are pending, no feedback has
arrived, no upstream update is ready, and pair 0 sits in the focus set. -/
def c1St : ExecState Nat Nat Nat Nat :=
  { books := fun _ => 0, env := 0, feedback := [], upstream := []
    pendingEffects := some (0, 7), focusSet := [0] }

/-- Predicted chain for C8/C10: `v1 = 1 → v2 = 2` for stable id 5. -/
def c8db : EntityDB :=
  putPredicted (putPredicted emptyDB ⟨5, 1⟩ none) ⟨5, 2⟩ (some 1)

/-- Cache for C9: bearers 101 and 102 under stable ids 1 and 2. -/
def c9Cache : Nat → Option Nat :=
  fun n => if n = 1 then some 101 else if n = 2 then some 102 else none

/-- Two distinct fill instructions for C9. -/
def c9Xs : List EngineInstr := [.fillE ⟨1, 11⟩, .fillE ⟨2, 22⟩]

/-! ### Store lemmas -/

theorem removeFirst_pred {α : Type} (p : α → Bool) :
    ∀ (l l2 : List α) (a : α), removeFirst p l = some (a, l2) → p a = true := by
  intro l
  induction l with
  | nil => intro l2 a h; simp [removeFirst] at h
  | cons x rest ih =>
    intro l2 a h
    simp only [removeFirst] at h
    by_cases hx : p x = true
    · rw [if_pos hx] at h
      obtain ⟨rfl, rfl⟩ : x = a ∧ rest = l2 := by
        have := Option.some.inj h
        exact ⟨congrArg Prod.fst this, congrArg Prod.snd this⟩
      exact hx
    · rw [if_neg hx] at h
      cases hrm : removeFirst p rest with
      | none => rw [hrm] at h; exact Option.noConfusion h
      | some r =>
        obtain ⟨r1, r2⟩ := r
        rw [hrm] at h
        obtain ⟨h1, _⟩ : r1 = a ∧ x :: r2 = l2 := by
          have := Option.some.inj h
          exact ⟨congrArg Prod.fst this, congrArg Prod.snd this⟩
        subst h1
        exact ih r2 r1 hrm

theorem removeFirst_ms {α : Type} (p : α → Bool) :
    ∀ (l l2 : List α) (a : α), removeFirst p l = some (a, l2) →
      (l : Multiset α) = a ::ₘ (l2 : Multiset α) := by
  intro l
  induction l with
  | nil => intro l2 a h; simp [removeFirst] at h
  | cons x rest ih =>
    intro l2 a h
    simp only [removeFirst] at h
    by_cases hx : p x = true
    · rw [if_pos hx] at h
      obtain ⟨rfl, rfl⟩ : x = a ∧ rest = l2 := by
        have := Option.some.inj h
        exact ⟨congrArg Prod.fst this, congrArg Prod.snd this⟩
      rfl
    · rw [if_neg hx] at h
      cases hrm : removeFirst p rest with
      | none => rw [hrm] at h; exact Option.noConfusion h
      | some r =>
        obtain ⟨r1, r2⟩ := r
        rw [hrm] at h
        obtain ⟨h1, h2⟩ : r1 = a ∧ x :: r2 = l2 := by
          have := Option.some.inj h
          exact ⟨congrArg Prod.fst this, congrArg Prod.snd this⟩
        subst h1
        subst h2
        have hr := ih r2 r1 hrm
        show ((x :: rest : List α) : Multiset α) = r1 ::ₘ ((x :: r2 : List α) : Multiset α)
        rw [← Multiset.cons_coe, ← Multiset.cons_coe, hr, Multiset.cons_swap]

theorem tryPick_pred (fs : FragStore) (s : SideMarker) (p : Fragment → Bool)
    (fr : Fragment) (fs1 : FragStore) (h : fs.tryPick s p = some (fr, fs1)) :
    p fr = true := by
  unfold FragStore.tryPick at h
  cases hrm : removeFirst p (fs.sideList s) with
  | none => rw [hrm] at h; exact Option.noConfusion h
  | some r =>
    obtain ⟨r1, r2⟩ := r
    rw [hrm] at h
    have h1 : r1 = fr := congrArg Prod.fst (Option.some.inj h)
    subst h1
    exact removeFirst_pred p (fs.sideList s) r2 r1 hrm

theorem tryPick_ms (fs : FragStore) (s : SideMarker) (p : Fragment → Bool)
    (fr : Fragment) (fs1 : FragStore) (h : fs.tryPick s p = some (fr, fs1)) :
    fragMS fs = (s, fr) ::ₘ fragMS fs1 := by
  unfold FragStore.tryPick at h
  cases hrm : removeFirst p (fs.sideList s) with
  | none => rw [hrm] at h; exact Option.noConfusion h
  | some r =>
    obtain ⟨r1, r2⟩ := r
    rw [hrm] at h
    have h1 : r1 = fr := congrArg Prod.fst (Option.some.inj h)
    have h2 : fs.withSide s r2 = fs1 := congrArg Prod.snd (Option.some.inj h)
    subst h1
    subst h2
    have hl := removeFirst_ms p (fs.sideList s) r2 r1 hrm
    have hmap := congrArg (Multiset.map (fun f => (s, f))) hl
    rw [Multiset.map_coe, Multiset.map_cons, Multiset.map_coe] at hmap
    cases s
    · simp only [FragStore.sideList] at hmap
      simp only [fragMS, FragStore.withSide, hmap, Multiset.cons_add]
    · simp only [FragStore.sideList] at hmap
      simp only [fragMS, FragStore.withSide, hmap, Multiset.add_cons]

theorem returnFr_ms (fs : FragStore) (sf : SideT Fragment) :
    fragMS (fs.returnFr sf) = (sf.marker, sf.any) ::ₘ fragMS fs := by
  cases sf <;>
    simp only [FragStore.returnFr, FragStore.withSide, FragStore.sideList,
      SideT.marker, SideT.any, fragMS, List.map_cons, ← Multiset.cons_coe,
      Multiset.cons_add, Multiset.add_cons]

theorem pickEither_ms (fs : FragStore) (pf : SideT PartialFill) (fs1 : FragStore)
    (h : fs.pickEither = some (pf, fs1)) :
    fragMS fs = (pf.marker, pf.any.target) ::ₘ fragMS fs1 := by
  unfold FragStore.pickEither at h
  cases hA : fs.asks with
  | cons a rest =>
    rw [hA] at h
    have h1 : SideT.ask (PartialFill.new a) = pf := congrArg Prod.fst (Option.some.inj h)
    have h2 : { fs with asks := rest } = fs1 := congrArg Prod.snd (Option.some.inj h)
    subst h1
    subst h2
    simp only [fragMS, hA, SideT.marker, SideT.any, PartialFill.new, List.map_cons,
      ← Multiset.cons_coe, Multiset.cons_add]
  | nil =>
    rw [hA] at h
    cases hB : fs.bids with
    | nil => rw [hB] at h; exact Option.noConfusion h
    | cons b rest =>
      rw [hB] at h
      have h1 : SideT.bid (PartialFill.new b) = pf := congrArg Prod.fst (Option.some.inj h)
      have h2 : ({ asks := [], bids := rest } : FragStore) = fs1 :=
        congrArg Prod.snd (Option.some.inj h)
      subst h1
      subst h2
      simp only [fragMS, hA, hB, SideT.marker, SideT.any, PartialFill.new, List.map_cons,
        ← Multiset.cons_coe, Multiset.cons_add, Multiset.add_cons]

theorem fragPredicate_le (rem : SideT PartialFill) (budget : Nat) (fr : Fragment)
    (h : fragPredicate rem budget fr = true) : fr.costHint ≤ budget := by
  unfold fragPredicate at h
  exact of_decide_eq_true (Bool.and_elim_right h)

theorem fillFromFragment_tags_inl (rem : SideT PartialFill) (opp : Fragment)
    (lt rt : SideT Fill) (h : fillFromFragment rem opp = (lt, .inl rt)) :
    instrFragsMS (.fillI lt) + instrFragsMS (.fillI rt)
      = remFragsMS (some rem) + {(rem.marker.flip, opp)} := by
  cases rem with
  | bid pf =>
    simp only [fillFromFragment] at h
    split_ifs at h
    · exact Sum.noConfusion (congrArg Prod.snd h)
    · exact Sum.noConfusion (congrArg Prod.snd h)
    · have hA := congrArg Prod.fst h
      have hB := Sum.inl.inj (congrArg Prod.snd h)
      subst hA
      subst hB
      rfl
  | ask pf =>
    simp only [fillFromFragment] at h
    split_ifs at h
    · exact Sum.noConfusion (congrArg Prod.snd h)
    · exact Sum.noConfusion (congrArg Prod.snd h)
    · have hA := congrArg Prod.fst h
      have hB := Sum.inl.inj (congrArg Prod.snd h)
      subst hA
      subst hB
      rfl

theorem fillFromFragment_tags_inr (rem : SideT PartialFill) (opp : Fragment)
    (lt : SideT Fill) (pr : SideT PartialFill)
    (h : fillFromFragment rem opp = (lt, .inr pr)) :
    instrFragsMS (.fillI lt) + remFragsMS (some pr)
      = remFragsMS (some rem) + {(rem.marker.flip, opp)} := by
  cases rem with
  | bid pf =>
    simp only [fillFromFragment] at h
    split_ifs at h
    · have hA := congrArg Prod.fst h
      have hB := Sum.inr.inj (congrArg Prod.snd h)
      subst hA
      subst hB
      rfl
    · have hA := congrArg Prod.fst h
      have hB := Sum.inr.inj (congrArg Prod.snd h)
      subst hA
      subst hB
      show ({(SideMarker.ask, opp)} : Multiset (SideMarker × Fragment))
          + {(SideMarker.bid, pf.target)}
        = {(SideMarker.bid, pf.target)} + {(SideMarker.ask, opp)}
      exact add_comm _ _
    · exact Sum.noConfusion (congrArg Prod.snd h)
  | ask pf =>
    simp only [fillFromFragment] at h
    split_ifs at h
    · have hA := congrArg Prod.fst h
      have hB := Sum.inr.inj (congrArg Prod.snd h)
      subst hA
      subst hB
      show ({(SideMarker.bid, opp)} : Multiset (SideMarker × Fragment))
          + {(SideMarker.ask, pf.target)}
        = {(SideMarker.ask, pf.target)} + {(SideMarker.bid, opp)}
      exact add_comm _ _
    · have hA := congrArg Prod.fst h
      have hB := Sum.inr.inj (congrArg Prod.snd h)
      subst hA
      subst hB
      rfl
    · exact Sum.noConfusion (congrArg Prod.snd h)

theorem recipeMS_new (pf : SideT PartialFill) :
    recipeMS (Recipe.new pf) = {(pf.marker, pf.any.target)} := by
  simp [recipeMS, Recipe.new, remFragsMS]

theorem recipeMS_push_set (acc : Recipe) (lt : SideT Fill) (r : SideT PartialFill) :
    recipeMS ((acc.push (.fillI lt)).setRemainder r)
      = ((acc.instructions.map instrFragsMS).sum + instrFragsMS (.fillI lt))
          + remFragsMS (some r) := by
  simp [recipeMS, Recipe.push, Recipe.setRemainder]

theorem recipeMS_of_rem (acc : Recipe) (rem : SideT PartialFill)
    (h : acc.remainder = some rem) :
    recipeMS acc = (acc.instructions.map instrFragsMS).sum + remFragsMS (some rem) := by
  rw [recipeMS, h]

theorem pushTerminate_complete (acc : Recipe) (i j : TermInstr) :
    ((acc.push i).terminate j).isComplete = true := by
  simp [Recipe.push, Recipe.terminate, Recipe.isComplete]

theorem hasSwap_push_fill_set (acc : Recipe) (lt : SideT Fill) (r : SideT PartialFill) :
    recipeHasSwap ((acc.push (.fillI lt)).setRemainder r) = recipeHasSwap acc := by
  simp [recipeHasSwap, Recipe.push, Recipe.setRemainder]

theorem poolArm_of_incomplete (acc : Recipe) (rem : SideT PartialFill) (budget : Nat)
    (fs : FragStore) (ps : PoolStore) (pricePools : Option Rat) (entry0 : LoopEntry)
    (h : (poolArm acc rem budget fs ps pricePools entry0).acc.isComplete = false) :
    poolArm acc rem budget fs ps pricePools entry0 = ⟨acc, budget, fs, ps, [entry0]⟩ := by
  unfold poolArm at h ⊢
  split_ifs at h ⊢ with hg
  · cases hpick : ps.tryPick (poolPredicate rem) with
    | none => rfl
    | some r =>
      obtain ⟨pool, ps1⟩ := r
      rw [hpick] at h
      have h2 : ((acc.push (TermInstr.swapI (fillFromPool rem pool).2)).terminate
          (TermInstr.fillI (fillFromPool rem pool).1)).isComplete = false := h
      rw [pushTerminate_complete] at h2
      exact Bool.noConfusion h2
  · rfl

theorem poolArm_budget_log (acc : Recipe) (rem : SideT PartialFill) (budget : Nat)
    (fs : FragStore) (ps : PoolStore) (pricePools : Option Rat) (entry0 : LoopEntry) :
    (poolArm acc rem budget fs ps pricePools entry0).budget = budget
    ∧ (poolArm acc rem budget fs ps pricePools entry0).log = [entry0] := by
  unfold poolArm
  split_ifs with hg
  · cases hpick : ps.tryPick (poolPredicate rem) with
    | none => exact ⟨rfl, rfl⟩
    | some r =>
      obtain ⟨pool, ps1⟩ := r
      exact ⟨rfl, rfl⟩
  · exact ⟨rfl, rfl⟩


/-! ### Branch equations of `attemptLoop` -/

theorem attemptLoop_rem_none (fixedSide : SideMarker) (cap : ExecutionCap)
    (n : Nat) (acc : Recipe) (budget : Nat) (fs : FragStore) (ps : PoolStore)
    (hrem : acc.remainder = none) :
    attemptLoop fixedSide cap (n + 1) acc budget fs ps = ⟨acc, budget, fs, ps, []⟩ := by
  simp [attemptLoop, hrem]

theorem attemptLoop_noFragPrice (fixedSide : SideMarker) (cap : ExecutionCap)
    (n : Nat) (acc : Recipe) (budget : Nat) (fs : FragStore) (ps : PoolStore)
    (rem : SideT PartialFill) (hrem : acc.remainder = some rem)
    (hpf : fs.bestPrice fixedSide.flip = none) :
    attemptLoop fixedSide cap (n + 1) acc budget fs ps
      = poolArm acc rem budget fs ps ps.bestPrice
          ⟨rem.marker, fixedSide.flip, budget, none, budget⟩ := by
  simp [attemptLoop, hrem, hpf]

theorem attemptLoop_guardFalse (fixedSide : SideMarker) (cap : ExecutionCap)
    (n : Nat) (acc : Recipe) (budget : Nat) (fs : FragStore) (ps : PoolStore)
    (rem : SideT PartialFill) (pf : SideT Rat) (hrem : acc.remainder = some rem)
    (hpf : fs.bestPrice fixedSide.flip = some pf)
    (hg : ((ps.bestPrice.map (fun p => pf.betterThan p)).getD true
        && decide (cap.safeThreshold < budget)) = false) :
    attemptLoop fixedSide cap (n + 1) acc budget fs ps
      = poolArm acc rem budget fs ps ps.bestPrice
          ⟨rem.marker, fixedSide.flip, budget, none, budget⟩ := by
  simp [attemptLoop, hrem, hpf, hg]

theorem attemptLoop_pickNone (fixedSide : SideMarker) (cap : ExecutionCap)
    (n : Nat) (acc : Recipe) (budget : Nat) (fs : FragStore) (ps : PoolStore)
    (rem : SideT PartialFill) (pf : SideT Rat) (hrem : acc.remainder = some rem)
    (hpf : fs.bestPrice fixedSide.flip = some pf)
    (hg : ((ps.bestPrice.map (fun p => pf.betterThan p)).getD true
        && decide (cap.safeThreshold < budget)) = true)
    (hpick : fs.tryPick rem.marker.flip (fragPredicate rem budget) = none) :
    attemptLoop fixedSide cap (n + 1) acc budget fs ps
      = ⟨acc, budget, fs, ps, [⟨rem.marker, fixedSide.flip, budget, none, budget⟩]⟩ := by
  simp [attemptLoop, hrem, hpf, hg, hpick]

theorem attemptLoop_pickInl (fixedSide : SideMarker) (cap : ExecutionCap)
    (n : Nat) (acc : Recipe) (budget : Nat) (fs : FragStore) (ps : PoolStore)
    (rem : SideT PartialFill) (pf : SideT Rat) (opp : Fragment) (fs1 : FragStore)
    (ltFill rtFill : SideT Fill) (hrem : acc.remainder = some rem)
    (hpf : fs.bestPrice fixedSide.flip = some pf)
    (hg : ((ps.bestPrice.map (fun p => pf.betterThan p)).getD true
        && decide (cap.safeThreshold < budget)) = true)
    (hpick : fs.tryPick rem.marker.flip (fragPredicate rem budget) = some (opp, fs1))
    (hfill : fillFromFragment rem opp = (ltFill, .inl rtFill)) :
    attemptLoop fixedSide cap (n + 1) acc budget fs ps
      = ⟨(acc.push (.fillI ltFill)).terminate (.fillI rtFill), budget - opp.costHint,
          fs1, ps,
          [⟨rem.marker, fixedSide.flip, budget, some opp.costHint, budget - opp.costHint⟩]⟩ := by
  simp [attemptLoop, hrem, hpf, hg, hpick, hfill]

theorem attemptLoop_pickInr (fixedSide : SideMarker) (cap : ExecutionCap)
    (n : Nat) (acc : Recipe) (budget : Nat) (fs : FragStore) (ps : PoolStore)
    (rem : SideT PartialFill) (pf : SideT Rat) (opp : Fragment) (fs1 : FragStore)
    (ltFill : SideT Fill) (newRem : SideT PartialFill) (hrem : acc.remainder = some rem)
    (hpf : fs.bestPrice fixedSide.flip = some pf)
    (hg : ((ps.bestPrice.map (fun p => pf.betterThan p)).getD true
        && decide (cap.safeThreshold < budget)) = true)
    (hpick : fs.tryPick rem.marker.flip (fragPredicate rem budget) = some (opp, fs1))
    (hfill : fillFromFragment rem opp = (ltFill, .inr newRem)) :
    attemptLoop fixedSide cap (n + 1) acc budget fs ps
      = ⟨(attemptLoop fixedSide cap n ((acc.push (.fillI ltFill)).setRemainder newRem)
            (budget - opp.costHint) fs1 ps).acc,
         (attemptLoop fixedSide cap n ((acc.push (.fillI ltFill)).setRemainder newRem)
            (budget - opp.costHint) fs1 ps).budget,
         (attemptLoop fixedSide cap n ((acc.push (.fillI ltFill)).setRemainder newRem)
            (budget - opp.costHint) fs1 ps).fs,
         (attemptLoop fixedSide cap n ((acc.push (.fillI ltFill)).setRemainder newRem)
            (budget - opp.costHint) fs1 ps).ps,
         ⟨rem.marker, fixedSide.flip, budget, some opp.costHint, budget - opp.costHint⟩
           :: (attemptLoop fixedSide cap n ((acc.push (.fillI ltFill)).setRemainder newRem)
            (budget - opp.costHint) fs1 ps).log⟩ := by
  simp [attemptLoop, hrem, hpf, hg, hpick, hfill]

/-! ### Loop invariants -/

theorem attemptLoop_inv (fixedSide : SideMarker) (cap : ExecutionCap) :
    ∀ (fuel : Nat) (acc : Recipe) (budget : Nat) (fs : FragStore) (ps : PoolStore),
      (attemptLoop fixedSide cap fuel acc budget fs ps).acc.isComplete = false →
        fragMS (attemptLoop fixedSide cap fuel acc budget fs ps).fs
            + recipeMS (attemptLoop fixedSide cap fuel acc budget fs ps).acc
          = fragMS fs + recipeMS acc
        ∧ (attemptLoop fixedSide cap fuel acc budget fs ps).ps = ps
        ∧ recipeHasSwap (attemptLoop fixedSide cap fuel acc budget fs ps).acc
          = recipeHasSwap acc := by
  intro fuel
  induction fuel with
  | zero => intro acc budget fs ps _; exact ⟨rfl, rfl, rfl⟩
  | succ n ih =>
    intro acc budget fs ps h
    cases hrem : acc.remainder with
    | none =>
      rw [attemptLoop_rem_none fixedSide cap n acc budget fs ps hrem]
      exact ⟨rfl, rfl, rfl⟩
    | some rem =>
      cases hpf : fs.bestPrice fixedSide.flip with
      | none =>
        rw [attemptLoop_noFragPrice fixedSide cap n acc budget fs ps rem hrem hpf] at h ⊢
        rw [poolArm_of_incomplete _ _ _ _ _ _ _ h]
        exact ⟨rfl, rfl, rfl⟩
      | some pf =>
        cases hg : ((ps.bestPrice.map (fun p => pf.betterThan p)).getD true
            && decide (cap.safeThreshold < budget)) with
        | false =>
          rw [attemptLoop_guardFalse fixedSide cap n acc budget fs ps rem pf hrem hpf hg] at h ⊢
          rw [poolArm_of_incomplete _ _ _ _ _ _ _ h]
          exact ⟨rfl, rfl, rfl⟩
        | true =>
          cases hpick : fs.tryPick rem.marker.flip (fragPredicate rem budget) with
          | none =>
            rw [attemptLoop_pickNone fixedSide cap n acc budget fs ps rem pf hrem hpf hg hpick]
            exact ⟨rfl, rfl, rfl⟩
          | some r =>
            obtain ⟨opp, fs1⟩ := r
            cases hfill : fillFromFragment rem opp with
            | mk ltFill sumr =>
              cases sumr with
              | inl rtFill =>
                rw [attemptLoop_pickInl fixedSide cap n acc budget fs ps rem pf opp fs1
                  ltFill rtFill hrem hpf hg hpick hfill] at h
                have h2 : ((acc.push (TermInstr.fillI ltFill)).terminate
                    (TermInstr.fillI rtFill)).isComplete = false := h
                rw [pushTerminate_complete] at h2
                exact Bool.noConfusion h2
              | inr newRem =>
                rw [attemptLoop_pickInr fixedSide cap n acc budget fs ps rem pf opp fs1
                  ltFill newRem hrem hpf hg hpick hfill] at h ⊢
                have hji : (attemptLoop fixedSide cap n
                    ((acc.push (.fillI ltFill)).setRemainder newRem)
                    (budget - opp.costHint) fs1 ps).acc.isComplete = false := h
                obtain ⟨e1, e2, e3⟩ := ih ((acc.push (.fillI ltFill)).setRemainder newRem)
                  (budget - opp.costHint) fs1 ps hji
                have htry := tryPick_ms fs rem.marker.flip (fragPredicate rem budget) opp fs1 hpick
                have htags := fillFromFragment_tags_inr rem opp ltFill newRem hfill
                have hacc := recipeMS_of_rem acc rem hrem
                refine ⟨?_, e2, ?_⟩
                · show fragMS (attemptLoop fixedSide cap n
                      ((acc.push (.fillI ltFill)).setRemainder newRem)
                      (budget - opp.costHint) fs1 ps).fs
                    + recipeMS (attemptLoop fixedSide cap n
                      ((acc.push (.fillI ltFill)).setRemainder newRem)
                      (budget - opp.costHint) fs1 ps).acc
                    = fragMS fs + recipeMS acc
                  rw [e1, recipeMS_push_set, add_assoc, htags, htry, hacc,
                    ← Multiset.singleton_add]
                  abel
                · show recipeHasSwap (attemptLoop fixedSide cap n
                      ((acc.push (.fillI ltFill)).setRemainder newRem)
                      (budget - opp.costHint) fs1 ps).acc = recipeHasSwap acc
                  exact e3.trans (hasSwap_push_fill_set acc ltFill newRem)

theorem attemptLoop_budget (fixedSide : SideMarker) (cap : ExecutionCap) :
    ∀ (fuel : Nat) (acc : Recipe) (budget : Nat) (fs : FragStore) (ps : PoolStore),
      chainOk budget (attemptLoop fixedSide cap fuel acc budget fs ps).log
      ∧ pickedTotal (attemptLoop fixedSide cap fuel acc budget fs ps).log
          + (attemptLoop fixedSide cap fuel acc budget fs ps).budget = budget := by
  intro fuel
  induction fuel with
  | zero => intro acc budget fs ps; exact ⟨trivial, Nat.zero_add budget⟩
  | succ n ih =>
    intro acc budget fs ps
    cases hrem : acc.remainder with
    | none =>
      rw [attemptLoop_rem_none fixedSide cap n acc budget fs ps hrem]
      exact ⟨trivial, Nat.zero_add budget⟩
    | some rem =>
      cases hpf : fs.bestPrice fixedSide.flip with
      | none =>
        rw [attemptLoop_noFragPrice fixedSide cap n acc budget fs ps rem hrem hpf]
        obtain ⟨hb, hl⟩ := poolArm_budget_log acc rem budget fs ps
          ps.bestPrice ⟨rem.marker, fixedSide.flip, budget, none, budget⟩
        rw [hb, hl]
        refine ⟨⟨⟨rfl, le_refl _, rfl⟩, trivial⟩, ?_⟩
        show 0 + 0 + budget = budget
        omega
      | some pf =>
        cases hg : ((ps.bestPrice.map (fun p => pf.betterThan p)).getD true
            && decide (cap.safeThreshold < budget)) with
        | false =>
          rw [attemptLoop_guardFalse fixedSide cap n acc budget fs ps rem pf hrem hpf hg]
          obtain ⟨hb, hl⟩ := poolArm_budget_log acc rem budget fs ps
            ps.bestPrice ⟨rem.marker, fixedSide.flip, budget, none, budget⟩
          rw [hb, hl]
          refine ⟨⟨⟨rfl, le_refl _, rfl⟩, trivial⟩, ?_⟩
          show 0 + 0 + budget = budget
          omega
        | true =>
          cases hpick : fs.tryPick rem.marker.flip (fragPredicate rem budget) with
          | none =>
            rw [attemptLoop_pickNone fixedSide cap n acc budget fs ps rem pf hrem hpf hg hpick]
            refine ⟨⟨⟨rfl, le_refl _, rfl⟩, trivial⟩, ?_⟩
            show 0 + 0 + budget = budget
            omega
          | some r =>
            obtain ⟨opp, fs1⟩ := r
            have hcost : opp.costHint ≤ budget :=
              fragPredicate_le rem budget opp
                (tryPick_pred fs rem.marker.flip (fragPredicate rem budget) opp fs1 hpick)
            cases hfill : fillFromFragment rem opp with
            | mk ltFill sumr =>
              cases sumr with
              | inl rtFill =>
                rw [attemptLoop_pickInl fixedSide cap n acc budget fs ps rem pf opp fs1
                  ltFill rtFill hrem hpf hg hpick hfill]
                refine ⟨⟨⟨rfl, Nat.sub_le _ _, hcost, rfl⟩, trivial⟩, ?_⟩
                show opp.costHint + 0 + (budget - opp.costHint) = budget
                omega
              | inr newRem =>
                rw [attemptLoop_pickInr fixedSide cap n acc budget fs ps rem pf opp fs1
                  ltFill newRem hrem hpf hg hpick hfill]
                obtain ⟨c1, c2⟩ := ih ((acc.push (.fillI ltFill)).setRemainder newRem)
                  (budget - opp.costHint) fs1 ps
                refine ⟨⟨⟨rfl, Nat.sub_le _ _, hcost, rfl⟩, c1⟩, ?_⟩
                show opp.costHint + pickedTotal (attemptLoop fixedSide cap n
                      ((acc.push (.fillI ltFill)).setRemainder newRem)
                      (budget - opp.costHint) fs1 ps).log
                    + (attemptLoop fixedSide cap n
                      ((acc.push (.fillI ltFill)).setRemainder newRem)
                      (budget - opp.costHint) fs1 ps).budget = budget
                omega


/-! ### Disassembly lemmas -/

theorem SideT.marker_map {α β : Type} (f : α → β) (sf : SideT α) :
    (sf.map f).marker = sf.marker := by
  cases sf <;> rfl

theorem SideT.any_map {α β : Type} (f : α → β) (sf : SideT α) :
    (sf.map f).any = f sf.any := by
  cases sf <;> rfl

theorem restoreLiq_fragMS :
    ∀ (l : List (SideT Fragment ⊕ Pool)) (fs : FragStore) (ps : PoolStore),
      fragMS (restoreLiq fs ps l).1 = fragMS fs + liqFragMS l := by
  intro l
  induction l with
  | nil => intro fs ps; simp [restoreLiq, liqFragMS]
  | cons x rest ih =>
    intro fs ps
    cases x with
    | inl sf =>
      show fragMS (restoreLiq (fs.returnFr sf) ps rest).1
        = fragMS fs + liqFragMS (.inl sf :: rest)
      rw [ih (fs.returnFr sf) ps, returnFr_ms]
      show ((sf.marker, sf.any) ::ₘ fragMS fs) + liqFragMS rest
        = fragMS fs + ((sf.marker, sf.any) ::ₘ liqFragMS rest)
      rw [← Multiset.singleton_add, ← Multiset.singleton_add]
      abel
    | inr pl =>
      show fragMS (restoreLiq fs (ps.updatePool pl) rest).1
        = fragMS fs + liqFragMS (.inr pl :: rest)
      rw [ih fs (ps.updatePool pl)]
      rfl

theorem restoreLiq_ps :
    ∀ (l : List (SideT Fragment ⊕ Pool)) (fs : FragStore) (ps : PoolStore),
      (∀ x ∈ l, x.isLeft = true) → (restoreLiq fs ps l).2 = ps := by
  intro l
  induction l with
  | nil => intro fs ps _; rfl
  | cons x rest ih =>
    intro fs ps hall
    cases x with
    | inl sf =>
      show (restoreLiq (fs.returnFr sf) ps rest).2 = ps
      exact ih (fs.returnFr sf) ps (fun y hy => hall y (List.mem_cons_of_mem _ hy))
    | inr pl =>
      have := hall (.inr pl) (List.mem_cons_self _ _)
      simp [Sum.isLeft] at this

theorem liqFragMS_append (l1 l2 : List (SideT Fragment ⊕ Pool)) :
    liqFragMS (l1 ++ l2) = liqFragMS l1 + liqFragMS l2 := by
  induction l1 with
  | nil => simp [liqFragMS]
  | cons x rest ih =>
    cases x with
    | inl sf =>
      show liqFragMS (.inl sf :: (rest ++ l2)) = liqFragMS (.inl sf :: rest) + liqFragMS l2
      show (sf.marker, sf.any) ::ₘ liqFragMS (rest ++ l2)
        = ((sf.marker, sf.any) ::ₘ liqFragMS rest) + liqFragMS l2
      rw [ih, Multiset.cons_add]
    | inr pl =>
      show liqFragMS (rest ++ l2) = liqFragMS rest + liqFragMS l2
      exact ih

theorem liqFragMS_instrs (instrs : List TermInstr) :
    liqFragMS (instrs.map instrLiq) = (instrs.map instrFragsMS).sum := by
  induction instrs with
  | nil => rfl
  | cons i rest ih =>
    cases i with
    | fillI sf =>
      show ((sf.map (fun f => f.target)).marker, (sf.map (fun f => f.target)).any)
          ::ₘ liqFragMS (rest.map instrLiq)
        = instrFragsMS (.fillI sf) + (rest.map instrFragsMS).sum
      rw [SideT.marker_map, SideT.any_map, ih]
      show (sf.marker, sf.any.target) ::ₘ (rest.map instrFragsMS).sum
        = {(sf.marker, sf.any.target)} + (rest.map instrFragsMS).sum
      rw [Multiset.singleton_add]
    | swapI sw =>
      show liqFragMS (rest.map instrLiq)
        = instrFragsMS (.swapI sw) + (rest.map instrFragsMS).sum
      rw [ih]
      show (rest.map instrFragsMS).sum = 0 + (rest.map instrFragsMS).sum
      rw [zero_add]

theorem disassemble_liq (acc : Recipe) :
    liqFragMS acc.disassemble = recipeMS acc := by
  unfold Recipe.disassemble recipeMS
  rw [liqFragMS_append, liqFragMS_instrs]
  cases hrem : acc.remainder with
  | none => rfl
  | some r =>
    show (acc.instructions.map instrFragsMS).sum
        + ((r.map (fun pf => pf.target)).marker, (r.map (fun pf => pf.target)).any)
          ::ₘ liqFragMS []
      = (acc.instructions.map instrFragsMS).sum + remFragsMS (some r)
    rw [SideT.marker_map, SideT.any_map]
    rfl

theorem disassemble_allLeft (acc : Recipe) (h : recipeHasSwap acc = false) :
    ∀ x ∈ acc.disassemble, x.isLeft = true := by
  intro x hx
  unfold Recipe.disassemble at hx
  rcases List.mem_append.mp hx with hx1 | hx2
  · obtain ⟨i, hi, hix⟩ := List.mem_map.mp hx1
    cases i with
    | fillI sf => rw [← hix]; rfl
    | swapI sw =>
      unfold recipeHasSwap at h
      rw [List.any_eq_false] at h
      have := h _ hi
      simp at this
  · cases hrem : acc.remainder with
    | none => rw [hrem] at hx2; simp at hx2
    | some r =>
      rw [hrem] at hx2
      have : x = Sum.inl (r.map (fun pf => pf.target)) := List.mem_singleton.mp hx2
      rw [this]
      rfl

/-! ### Branch equations of `attempt` -/

theorem attempt_eq_pickNone (cap : ExecutionCap) (fs : FragStore) (ps : PoolStore)
    (hpe : fs.pickEither = none) : attempt cap fs ps = ⟨none, fs, ps, []⟩ := by
  simp [attempt, hpe]

theorem attempt_eq_complete (cap : ExecutionCap) (fs : FragStore) (ps : PoolStore)
    (bestFr : SideT PartialFill) (fs1 : FragStore)
    (hpe : fs.pickEither = some (bestFr, fs1))
    (hc : (attemptLoop bestFr.marker cap (fs1.size + 1) (Recipe.new bestFr)
        cap.hard fs1 ps).acc.isComplete = true) :
    attempt cap fs ps
      = ⟨some (attemptLoop bestFr.marker cap (fs1.size + 1) (Recipe.new bestFr)
            cap.hard fs1 ps).acc,
         (attemptLoop bestFr.marker cap (fs1.size + 1) (Recipe.new bestFr)
            cap.hard fs1 ps).fs,
         (attemptLoop bestFr.marker cap (fs1.size + 1) (Recipe.new bestFr)
            cap.hard fs1 ps).ps,
         (attemptLoop bestFr.marker cap (fs1.size + 1) (Recipe.new bestFr)
            cap.hard fs1 ps).log⟩ := by
  simp [attempt, hpe, hc]

theorem attempt_eq_incomplete (cap : ExecutionCap) (fs : FragStore) (ps : PoolStore)
    (bestFr : SideT PartialFill) (fs1 : FragStore)
    (hpe : fs.pickEither = some (bestFr, fs1))
    (hc : (attemptLoop bestFr.marker cap (fs1.size + 1) (Recipe.new bestFr)
        cap.hard fs1 ps).acc.isComplete = false) :
    attempt cap fs ps
      = ⟨none,
         (restoreLiq (attemptLoop bestFr.marker cap (fs1.size + 1) (Recipe.new bestFr)
              cap.hard fs1 ps).fs
            (attemptLoop bestFr.marker cap (fs1.size + 1) (Recipe.new bestFr)
              cap.hard fs1 ps).ps
            (attemptLoop bestFr.marker cap (fs1.size + 1) (Recipe.new bestFr)
              cap.hard fs1 ps).acc.disassemble).1,
         (restoreLiq (attemptLoop bestFr.marker cap (fs1.size + 1) (Recipe.new bestFr)
              cap.hard fs1 ps).fs
            (attemptLoop bestFr.marker cap (fs1.size + 1) (Recipe.new bestFr)
              cap.hard fs1 ps).ps
            (attemptLoop bestFr.marker cap (fs1.size + 1) (Recipe.new bestFr)
              cap.hard fs1 ps).acc.disassemble).2,
         (attemptLoop bestFr.marker cap (fs1.size + 1) (Recipe.new bestFr)
            cap.hard fs1 ps).log⟩ := by
  simp [attempt, hpe, hc]


/-! ### Linking lemmas -/

theorem linkRecipeGo_eq (cache : Nat → Option Nat) :
    ∀ (ys : List EngineInstr) (acc : List LinkedInstr),
      linkRecipeGo cache ys acc
        = (linkAllSameOrder cache ys).map (fun ls => acc ++ ls) := by
  intro ys
  induction ys with
  | nil => intro acc; simp [linkRecipeGo, linkAllSameOrder]
  | cons i rest ih =>
    intro acc
    cases hli : linkInstr cache i with
    | none => simp [linkRecipeGo, linkAllSameOrder, hli]
    | some l =>
      simp only [linkRecipeGo, linkAllSameOrder, hli]
      rw [ih (acc ++ [l])]
      cases hrest : linkAllSameOrder cache rest with
      | none => rfl
      | some ls => simp [List.append_assoc]

theorem linkAll_append (cache : Nat → Option Nat) :
    ∀ (as bs : List EngineInstr),
      linkAllSameOrder cache (as ++ bs)
        = (linkAllSameOrder cache as).bind
            (fun la => (linkAllSameOrder cache bs).map (fun lb => la ++ lb)) := by
  intro as
  induction as with
  | nil =>
    intro bs
    cases hbs : linkAllSameOrder cache bs <;>
      simp [linkAllSameOrder, hbs]
  | cons i rest ih =>
    intro bs
    cases hli : linkInstr cache i with
    | none => simp [linkAllSameOrder, hli]
    | some l =>
      simp only [List.cons_append, linkAllSameOrder, hli]
      simp only [List.append_eq]
      rw [ih bs]
      cases hrest : linkAllSameOrder cache rest with
      | none => rfl
      | some ls =>
        cases hbs : linkAllSameOrder cache bs <;> simp [hbs]

theorem linkAll_reverse (cache : Nat → Option Nat) :
    ∀ (xs : List EngineInstr),
      linkAllSameOrder cache xs.reverse
        = (linkAllSameOrder cache xs).map List.reverse := by
  intro xs
  induction xs with
  | nil => rfl
  | cons i rest ih =>
    rw [List.reverse_cons, linkAll_append, ih]
    cases hli : linkInstr cache i with
    | none =>
      cases hrest : linkAllSameOrder cache rest <;>
        simp [linkAllSameOrder, hli, hrest]
    | some l =>
      cases hrest : linkAllSameOrder cache rest <;>
        simp [linkAllSameOrder, hli, hrest]

/-! ### Repository theorems -/

/-- C8 (amended): `invalidate(version, id)` drops the prediction link of
`version` and the unconfirmed index entry of `id`; when a predecessor exists
it is written into the **confirmed** index entry of `id` (equal to
`links version` in both cases), while the predicted index entry is left in
place — it merely stops resolving, because `get_last_predicted` requires a
prediction link for the indexed version; with no predecessor the confirmed
index entry is dropped silently. -/
theorem invalidate_effects (db : EntityDB) (sid eid : Nat)
    (h : db.lastPredicted eid = some sid) :
    (invalidate db sid eid).lastPredicted eid = some sid
    ∧ (invalidate db sid eid).links sid = none
    ∧ (invalidate db sid eid).lastUnconfirmed eid = none
    ∧ (invalidate db sid eid).lastConfirmed eid = db.links sid
    ∧ getLastPredicted (invalidate db sid eid) eid = none := by
  refine ⟨h, ?_, ?_, ?_, ?_⟩
  · simp [invalidate, mapUpd]
  · simp [invalidate, mapUpd]
  · cases hl : db.links sid <;>
      simp [invalidate, getPredictionPredecessor, mapUpd, hl]
  · simp [getLastPredicted, invalidate, getPredictionPredecessor, mapUpd, h]


/-! ### Claim theorems -/

/-- C1: refuted on the code.  With `pending_effects` holding pair 0 and the
feedback stream not ready, one `poll_next` falls through to the work loop,
calls `attempt()` on pair 0 (the call log is `[0]`), emits a new
transaction for pair 0 and silently **overwrites** the pending effects
`(0, 7)` with the new `(0, 9)` — the claim says `attempt()` is never called
on a pair with unresolved pending effects.  The source's own comment
(`todo: swap polling and pending_effects.take(); We don't wait here
actually.`) marks the slip. -/
theorem pendingExclusivityViolated :
    c1St.pendingEffects = some (0, 7)
    ∧ c1St.feedback = []
    ∧ (pollNext c1Deps 1 c1St).2.2 = [0]
    ∧ (pollNext c1Deps 1 c1St).1 = PollOut.ready 42
    ∧ (pollNext c1Deps 1 c1St).2.1.pendingEffects = some (0, 9) :=
  ⟨rfl, rfl, rfl, rfl, rfl⟩

/-- C2 (counterexample): `attempt` returns a recipe whose fragments carry a
total `cost_hint` of 1100 although the hard cap is 100 — the initially
picked fragment's cost is never budgeted, so the claim's "total cost_hint
of the fragments chosen into it ≤ hard" fails as stated. -/
theorem budgetClaimCounterexample :
    (attempt c2cap c2fs emptyPS).res.map Recipe.fragCost = some 1100
    ∧ c2cap.hard = 100
    ∧ ¬ (1100 : Nat) ≤ 100 := by
  refine ⟨by decide, rfl, by decide⟩

/-- C2 (amended): across the loop in `attempt` the budget is non-increasing
and never underflows — each logged iteration starts at the budget the
previous one left, and a picked counterparty fragment's cost is within the
budget in force and subtracted exactly — and the total cost of the
counterparty fragments picked **during the loop** (the initially picked
fragment is not counted) never exceeds the hard cap, whether or not a
recipe is returned. -/
theorem attemptBudgetMonotone (cap : ExecutionCap) (fs : FragStore) (ps : PoolStore) :
    chainOk cap.hard (attempt cap fs ps).log
    ∧ pickedTotal (attempt cap fs ps).log ≤ cap.hard := by
  cases hpe : fs.pickEither with
  | none =>
    rw [attempt_eq_pickNone cap fs ps hpe]
    exact ⟨trivial, Nat.zero_le _⟩
  | some r =>
    obtain ⟨bestFr, fs1⟩ := r
    obtain ⟨c1, c2⟩ := attemptLoop_budget bestFr.marker cap (fs1.size + 1)
      (Recipe.new bestFr) cap.hard fs1 ps
    cases hc : (attemptLoop bestFr.marker cap (fs1.size + 1) (Recipe.new bestFr)
        cap.hard fs1 ps).acc.isComplete with
    | true =>
      rw [attempt_eq_complete cap fs ps bestFr fs1 hpe hc]
      refine ⟨c1, ?_⟩
      show pickedTotal (attemptLoop bestFr.marker cap (fs1.size + 1)
        (Recipe.new bestFr) cap.hard fs1 ps).log ≤ cap.hard
      omega
    | false =>
      rw [attempt_eq_incomplete cap fs ps bestFr fs1 hpe hc]
      refine ⟨c1, ?_⟩
      show pickedTotal (attemptLoop bestFr.marker cap (fs1.size + 1)
        (Recipe.new bestFr) cap.hard fs1 ps).log ≤ cap.hard
      omega

/-- C2 witness: on the concrete scenario the recipe is returned and the
loop-picked total (100) respects the hard cap. -/
theorem attemptBudgetMonotoneWitness :
    (attempt c2cap c2fs emptyPS).res.isSome = true
    ∧ pickedTotal (attempt c2cap c2fs emptyPS).log ≤ c2cap.hard :=
  ⟨by decide, (attemptBudgetMonotone c2cap c2fs emptyPS).2⟩

/-- C3: refuted on the code.  On the concrete stores, iteration 2 of the
loop runs with a **Bid** remainder yet queries `best_price` on the **Bid**
side (the side fixed once from the initially picked Ask fragment, not the
side opposite to `rem`): the logged `(remainder side, queried side)` pairs
are `[(ask, bid), (bid, bid)]`, and `attempt` returns `None`, whereas the
spec-worded variant that queries the side opposite to the current remainder
completes a recipe through the pool.  The spec (§4.3 step 3b) is the clear
intent — `try_pick` on the next line already uses `!rem.marker()`. -/
theorem queriedSideBug :
    (attempt c3cap c3fs c3ps).res = none
    ∧ (attempt c3cap c3fs c3ps).log.map (fun e => (e.remSide, e.queriedSide))
        = [(SideMarker.ask, SideMarker.bid), (SideMarker.bid, SideMarker.bid)]
    ∧ SideMarker.bid.flip ≠ SideMarker.bid
    ∧ (attemptSpecRemSide c3cap c3fs c3ps).res.isSome = true := by
  refine ⟨by decide, by decide, by decide, by decide⟩

/-- C4 (counterexample): on spec scenario 3 the crossing price computed by
the code is `min(36/100, 37/100) = 36/100`, not the claimed
`max(36/100, 37/100) = 37/100` (the premise `B.fee > A.fee` holds). -/
theorem feeFavoredPriceCounterexample :
    askCrossPrice (PartialFill.new c4A) c4B = rq 36 100
    ∧ rq 36 100 ≠ rq 37 100
    ∧ c4A.fee < c4B.fee := by
  refine ⟨by decide, by decide, by decide⟩

/-- C4 (amended): because `B.fee > A.fee` the Ask-target branch selects the
`min` price selector, so the crossing price is `min(36/100, 37/100) =
36/100`; both fragments still terminate fully filled with `A` receiving
output 360 and `B` receiving output 1000. -/
theorem feeFavoredPriceAmended :
    askCrossPrice (PartialFill.new c4A) c4B = min c4B.price c4A.price
    ∧ fillFromFragment (.ask (PartialFill.new c4A)) c4B
        = (.ask ⟨c4A, 360⟩, .inl (.bid ⟨c4B, 1000⟩)) := by
  refine ⟨by decide, by decide⟩

/-- C5: on spec scenario 2 the Bid fragment `B` is fully filled with output
`⌊210·100/37⌋ = 567` base units (128-bit-widened multiplication, truncating
division), and `A` becomes a partial fill with `accumulated_output = 210`
and `remaining_input = 1000 − 567 = 433`. -/
theorem partialCrossExact :
    fillFromFragment (.ask (PartialFill.new c5A)) c5B
      = (.bid (Fill.new c5B 567), .inr (.ask ⟨c5A, 433, 210⟩))
    ∧ u64c (c5B.input * rden (askCrossPrice (PartialFill.new c5A) c5B)
        / rnum (askCrossPrice (PartialFill.new c5A) c5B)) = 567 := by
  refine ⟨by decide, by decide⟩

/-- C6: whenever `attempt()` returns `None`, the fragment multiset of the
fragment store and the entire pool store (pools map and quality index) are
restored to their state at entry: the loop removed each picked fragment
exactly once into the recipe, a pool pick always terminates (so the `None`
path never holds a pool), and the disassembly returns every recipe fragment
via `return_fr` (the reinsert through `update_pool` leaves the quality
index untouched because the pool was removed from the map only). -/
theorem attemptNoneRestores (cap : ExecutionCap) (fs : FragStore) (ps : PoolStore)
    (h : (attempt cap fs ps).res = none) :
    fragMS (attempt cap fs ps).fs = fragMS fs
    ∧ (attempt cap fs ps).ps = ps := by
  cases hpe : fs.pickEither with
  | none =>
    rw [attempt_eq_pickNone cap fs ps hpe]
    exact ⟨rfl, rfl⟩
  | some r =>
    obtain ⟨bestFr, fs1⟩ := r
    cases hc : (attemptLoop bestFr.marker cap (fs1.size + 1) (Recipe.new bestFr)
        cap.hard fs1 ps).acc.isComplete with
    | true =>
      rw [attempt_eq_complete cap fs ps bestFr fs1 hpe hc] at h
      exact Option.noConfusion h
    | false =>
      rw [attempt_eq_incomplete cap fs ps bestFr fs1 hpe hc]
      obtain ⟨e1, e2, e3⟩ := attemptLoop_inv bestFr.marker cap (fs1.size + 1)
        (Recipe.new bestFr) cap.hard fs1 ps hc
      have hnoswap : recipeHasSwap (attemptLoop bestFr.marker cap (fs1.size + 1)
          (Recipe.new bestFr) cap.hard fs1 ps).acc = false := by
        rw [e3]; rfl
      constructor
      · show fragMS (restoreLiq (attemptLoop bestFr.marker cap (fs1.size + 1)
            (Recipe.new bestFr) cap.hard fs1 ps).fs
            (attemptLoop bestFr.marker cap (fs1.size + 1) (Recipe.new bestFr)
              cap.hard fs1 ps).ps
            (attemptLoop bestFr.marker cap (fs1.size + 1) (Recipe.new bestFr)
              cap.hard fs1 ps).acc.disassemble).1 = fragMS fs
        rw [restoreLiq_fragMS, disassemble_liq, e1, recipeMS_new,
          pickEither_ms fs bestFr fs1 hpe, ← Multiset.singleton_add]
        abel
      · show (restoreLiq (attemptLoop bestFr.marker cap (fs1.size + 1)
            (Recipe.new bestFr) cap.hard fs1 ps).fs
            (attemptLoop bestFr.marker cap (fs1.size + 1) (Recipe.new bestFr)
              cap.hard fs1 ps).ps
            (attemptLoop bestFr.marker cap (fs1.size + 1) (Recipe.new bestFr)
              cap.hard fs1 ps).acc.disassemble).2 = ps
        rw [restoreLiq_ps _ _ _ (disassemble_allLeft _ hnoswap)]
        exact e2

/-- C6 witness: a lone Ask fragment with no counterparty; `attempt` fails
and both stores come back identical. -/
theorem attemptNoneRestoresWitness :
    (attempt c2cap c6fs emptyPS).res = none
    ∧ fragMS (attempt c2cap c6fs emptyPS).fs = fragMS c6fs
    ∧ (attempt c2cap c6fs emptyPS).ps = emptyPS := by
  have h : (attempt c2cap c6fs emptyPS).res = none := by decide
  exact ⟨h, (attemptNoneRestores c2cap c6fs emptyPS h).1,
    (attemptNoneRestores c2cap c6fs emptyPS h).2⟩

/-- C7: refuted on the code.  `update_pool(p)` on a store with no previous
pool under `p`'s source id does upsert `p` into the pools map (it is
retrievable by its source id) but leaves the quality index empty, so
`best_price()` stays `None` — the index entry is rebuilt only when a pool
with the same source id was already present (second conjunct vs. fourth:
a second `update_pool` of the same pool does index it).  The spec
("upserts; rebuilds the quality index entry for `p.source`") is the clear
intent: a fresh pool is otherwise invisible to `best_price`/`try_pick`
until its second update. -/
theorem updatePoolFreshBug :
    alLookup (emptyPS.updatePool c7P).pools 4 = some c7P
    ∧ (emptyPS.updatePool c7P).bestPrice = none
    ∧ (emptyPS.updatePool c7P).qualityIndex = []
    ∧ ((emptyPS.updatePool c7P).updatePool c7P).bestPrice = some (rq 1 1) := by
  refine ⟨by decide, by decide, by decide, by decide⟩

/-- C8 (counterexample): after predicting `v1 = 1 → v2 = 2` for id 5,
`invalidate(2, 5)` leaves the predicted index entry at version 2 — it is
**not** rewound to the predecessor 1; the predecessor is written into the
confirmed index entry instead. -/
theorem invalidateRewindCounterexample :
    (invalidate c8db 2 5).lastPredicted 5 = some 2
    ∧ (some 2 : Option Nat) ≠ some 1
    ∧ (invalidate c8db 2 5).lastConfirmed 5 = some 1 := by
  refine ⟨rfl, by decide, rfl⟩

/-- C8 witness: the amended characterization applied to the concrete
two-step predicted chain. -/
theorem invalidateEffectsWitness :
    c8db.lastPredicted 5 = some 2
    ∧ getLastPredicted (invalidate c8db 2 5) 5 = none
    ∧ (invalidate c8db 2 5).lastConfirmed 5 = c8db.links 2 :=
  ⟨rfl, (invalidate_effects c8db 2 5 rfl).2.2.2.2,
    (invalidate_effects c8db 2 5 rfl).2.2.2.1⟩

/-- C9 (counterexample): with both bearers in the cache, `link_recipe` on
two distinct fill instructions returns them in **reverse** order (the
`while let Some(i) = xs.pop()` loop pops from the back of the vec), not in
the order of the input recipe. -/
theorem linkRecipeOrderCounterexample :
    linkRecipe c9Cache c9Xs = some [.fillL ⟨2, 22⟩ 102, .fillL ⟨1, 11⟩ 101]
    ∧ linkAllSameOrder c9Cache c9Xs
        = some [.fillL ⟨1, 11⟩ 101, .fillL ⟨2, 22⟩ 102]
    ∧ linkRecipe c9Cache c9Xs ≠ linkAllSameOrder c9Cache c9Xs := by
  refine ⟨by decide, by decide, by decide⟩

/-- C9 (amended): `link_recipe` returns exactly the instructions of the
input recipe, each paired with the bearer fetched from the cache under its
target's stable id, but in **reverse** order; it yields a value precisely
when same-order linking does (every target present in the cache). -/
theorem linkRecipeReversed (cache : Nat → Option Nat) (xs : List EngineInstr) :
    linkRecipe cache xs = (linkAllSameOrder cache xs).map List.reverse := by
  unfold linkRecipe
  rw [linkRecipeGo_eq, linkAll_reverse]
  cases hall : linkAllSameOrder cache xs <;> simp [hall]

/-- C10: `put_predicted` of a `Traced` prediction with `prev_state_id =
None` writes no prediction link, yet stores the state and the
last-predicted index entry; a subsequent `get_last_predicted` therefore
returns `None`, because it yields a state only when a prediction link
exists for the version recorded in the index. -/
theorem putPredictedNoLink (db : EntityDB) (e : Entity)
    (h : db.links e.version = none) :
    (putPredicted db e none).links e.version = none
    ∧ (putPredicted db e none).states e.version = some e
    ∧ (putPredicted db e none).lastPredicted e.stableId = some e.version
    ∧ getLastPredicted (putPredicted db e none) e.stableId = none := by
  refine ⟨h, ?_, ?_, ?_⟩
  · simp [putPredicted, mapUpd]
  · simp [putPredicted, mapUpd]
  · simp [getLastPredicted, putPredicted, mapUpd, h]

/-- C10 witness: on the empty repository, a link-less prediction of
version 10 for id 7 is stored and indexed but does not resolve. -/
theorem putPredictedNoLinkWitness :
    emptyDB.links 10 = none
    ∧ getLastPredicted (putPredicted emptyDB ⟨7, 10⟩ none) 7 = none
    ∧ (putPredicted emptyDB ⟨7, 10⟩ none).lastPredicted 7 = some 10 :=
  ⟨rfl, (putPredictedNoLink emptyDB ⟨7, 10⟩ rfl).2.2.2,
    (putPredictedNoLink emptyDB ⟨7, 10⟩ rfl).2.2.1⟩

end SpectrumExec
